import Mathlib

/-!
# Image difference / posterize / sharpen pipeline

Shallow embedding of the accelerator kernel `IMAGE_DIFF_POSTERIZE` (vadd.cpp) and of the
host side `software_reference` with the result comparison loop of `main` (host.cpp).

Modelling conventions.

* A C `int` is an `Int`; every arithmetic operation of the source (`-`, unary `-`, `*`)
  is followed by `wrap32`, the twos-complement reduction to 32 bits.
* A flat buffer (`int *`, `std::vector<int>`) is a `List Int`; `b[i]` is `rd b i`
  and `b[i] = v` is `List.set`.
* A local two-dimensional array `int x[HEIGHT][WIDTH]` is a `List (List Int)` with
  `HEIGHT` rows of `WIDTH` entries; `x[i][j]` is `rd2 x i j`, `x[i][j] = v` is `wr2 x i j v`.
* A counted `for` loop is `for_loop n body`, which runs `body 0`, ..., `body (n-1)` in
  this order on an explicit state.
* The macro constants `HEIGHT` and `WIDTH` are passed to the loops as parameters `H`, `W`;
  the configured values are `HEIGHT = WIDTH = 128`.
-/

namespace Archlab2

/-! ## Constants -/

/-- Lower threshold, `#define T1 32`. -/
def T1 : Int := 32

/-- Upper threshold, `#define T2 96`. -/
def T2 : Int := 96

/-- Number of rows, `#define HEIGHT 128`. -/
def HEIGHT : Nat := 128

/-- Number of columns, `#define WIDTH 128`. -/
def WIDTH : Nat := 128

/-- Number of samples of a buffer, `#define DATA_SIZE (HEIGHT * WIDTH)`. -/
def DATA_SIZE : Nat := HEIGHT * WIDTH

/-! ## Machine integers -/

/-- Smallest `int`. -/
def INT_MIN : Int := -2147483648

/-- Largest `int`. -/
def INT_MAX : Int := 2147483647

/-- Twos-complement reduction of an integer to the range of a 32-bit `int`. -/
def wrap32 (x : Int) : Int := (x + 2147483648) % 4294967296 - 2147483648

/-- Subtraction of two `int`s. -/
def sub32 (a b : Int) : Int := wrap32 (a - b)

/-- Unary minus on an `int`. -/
def neg32 (a : Int) : Int := wrap32 (-a)

/-- Product of two `int`s. -/
def mul32 (a b : Int) : Int := wrap32 (a * b)

/-- The library function `std::abs` on `int`, `x < 0 ? -x : x`; on `INT_MIN` the
negation wraps around and gives `INT_MIN` back. -/
def std_abs (x : Int) : Int := if x < 0 then neg32 x else x

/-! ## Memory and loops -/

/-- Read `b[i]` of a flat buffer. -/
def rd (b : List Int) (i : Nat) : Int := b.getD i 0

/-- Read `x[i][j]` of a two-dimensional array. -/
def rd2 (x : List (List Int)) (i j : Nat) : Int := (x.getD i []).getD j 0

/-- Write `x[i][j] = v` of a two-dimensional array. -/
def wr2 (x : List (List Int)) (i j : Nat) (v : Int) : List (List Int) :=
  x.set i ((x.getD i []).set j v)

/-- A local array `int x[H][W]` before its first write. -/
def local2 (H W : Nat) : List (List Int) := List.replicate H (List.replicate W 0)

/-- The loop `for (int i = 0; i < n; i++) body`, on an explicit state. -/
def for_loop {σ : Type} (body : Nat → σ → σ) : Nat → σ → σ
  | 0, s => s
  | n + 1, s => body n (for_loop body n s)

/-! ## vadd.cpp -/

/-- The function `clip` of vadd.cpp. -/
def clip (x min_val max_val : Int) : Int :=
  if x < min_val then min_val
  else if x > max_val then max_val
  else x

/-- Loops `read_A` and `read_B`: copy a global buffer into a local array. -/
def read_img (H W : Nat) (inp : List Int) : List (List Int) :=
  for_loop (fun i img =>
    for_loop (fun j img => wr2 img i j (rd inp (i * W + j))) W img) H (local2 H W)

/-- Body of `process_diff_post` (vadd.cpp lines 92-102): the value stored in
`img_C[i][j]` for the samples `val_a`, `val_b`. -/
def diff_post (val_a val_b : Int) : Int :=
  let diff := sub32 val_a val_b
  let abs_diff := if diff > 0 then diff else neg32 diff
  if abs_diff < T1 then 0
  else if abs_diff < T2 then 128
  else 255

/-- Loop `process_diff_post`. -/
def process_diff_post (H W : Nat) (img_A img_B : List (List Int)) : List (List Int) :=
  for_loop (fun i img_C =>
    for_loop (fun j img_C =>
      let val_a := rd2 img_A i j
      let val_b := rd2 img_B i j
      wr2 img_C i j (diff_post val_a val_b)) W img_C) H (local2 H W)

/-- The expression `(5 * center) - up - down - left - right` on `int`s. -/
def stencil (center up down left right : Int) : Int :=
  sub32 (sub32 (sub32 (sub32 (mul32 5 center) up) down) left) right

/-- Loop `process_sharpen_filter`. -/
def process_sharpen_filter (H W : Nat) (img_C : List (List Int)) : List (List Int) :=
  for_loop (fun i C_filt =>
    for_loop (fun j C_filt =>
      if i = 0 ∨ i = H - 1 ∨ j = 0 ∨ j = W - 1 then
        wr2 C_filt i j (rd2 img_C i j)
      else
        let center := rd2 img_C i j
        let up := rd2 img_C (i - 1) j
        let down := rd2 img_C (i + 1) j
        let left := rd2 img_C i (j - 1)
        let right := rd2 img_C i (j + 1)
        let val := stencil center up down left right
        wr2 C_filt i j (clip val 0 255)) W C_filt) H (local2 H W)

/-- The last loop of the kernel: copy `C_filt` to the global buffer `out_r`. -/
def write_result (H W : Nat) (C_filt : List (List Int)) (out_r : List Int) : List Int :=
  for_loop (fun i out_r =>
    for_loop (fun j out_r => out_r.set (i * W + j) (rd2 C_filt i j)) W out_r) H out_r

/-- The classification image `img_C` the kernel computes from `in1`, `in2`. -/
def kernel_img_C (H W : Nat) (in1 in2 : List Int) : List (List Int) :=
  process_diff_post H W (read_img H W in1) (read_img H W in2)

/-- The kernel `IMAGE_DIFF_POSTERIZE`: the contents of `out_r` when it returns. -/
def IMAGE_DIFF_POSTERIZE (H W : Nat) (in1 in2 out_r : List Int) : List Int :=
  let img_A := read_img H W in1
  let img_B := read_img H W in2
  let img_C := process_diff_post H W img_A img_B
  let C_filt := process_sharpen_filter H W img_C
  write_result H W C_filt out_r

/-! ## host.cpp -/

/-- The function `clip_sw` of host.cpp. -/
def clip_sw (x : Int) : Int :=
  if x < 0 then 0
  else if x > 255 then 255
  else x

/-- Body of the first loop of `software_reference` (host.cpp lines 31-36): the
value stored in `temp_C[i]`. -/
def diff_post_sw (a b : Int) : Int :=
  let diff := sub32 a b
  let abs_diff := std_abs diff
  if abs_diff < T1 then 0
  else if abs_diff < T2 then 128
  else 255

/-- Stage 1 of `software_reference`: the buffer `temp_C` after the first loop. -/
def sw_posterize (H W : Nat) (A B : List Int) : List Int :=
  for_loop (fun i temp_C => temp_C.set i (diff_post_sw (rd A i) (rd B i)))
    (H * W) (List.replicate (H * W) 0)

/-- Stage 2 of `software_reference`: the buffer `C_Ref` after the sharpen loop. -/
def sw_sharpen (H W : Nat) (temp_C C_Ref : List Int) : List Int :=
  for_loop (fun i C_Ref =>
    for_loop (fun j C_Ref =>
      let idx := i * W + j
      if i = 0 ∨ i = H - 1 ∨ j = 0 ∨ j = W - 1 then
        C_Ref.set idx (rd temp_C idx)
      else
        let center := rd temp_C idx
        let up := rd temp_C ((i - 1) * W + j)
        let down := rd temp_C ((i + 1) * W + j)
        let left := rd temp_C (i * W + (j - 1))
        let right := rd temp_C (i * W + (j + 1))
        let val := stencil center up down left right
        C_Ref.set idx (clip_sw val)) W C_Ref) H C_Ref

/-- The function `software_reference`: the contents of `C_Ref` when it returns. -/
def software_reference (H W : Nat) (A B C_Ref : List Int) : List Int :=
  sw_sharpen H W (sw_posterize H W A B) C_Ref

/-- What the comparison loop of `main` has produced: the flag `match` and the
mismatch reports printed so far, each an index with the CPU and the device result. -/
structure CompareState where
  is_match : Bool
  printed : List (Nat × Int × Int)
deriving DecidableEq

/-- The comparison loop of `main` (host.cpp lines 184-192) from index `i` on, with
`remaining` iterations left; a mismatch prints one report and leaves the loop. -/
def compare_loop (hw_results sw_results : List Int) :
    (remaining : Nat) → (i : Nat) → CompareState → CompareState
  | 0, _, st => st
  | remaining + 1, i, st =>
    if rd hw_results i ≠ rd sw_results i then
      { is_match := false,
        printed := st.printed ++ [(i, rd sw_results i, rd hw_results i)] }
    else compare_loop hw_results sw_results remaining (i + 1) st

/-- Lines 183-192 of `main`: `match = true`, then the loop over `n = DATA_SIZE` samples. -/
def compare_results (n : Nat) (hw_results sw_results : List Int) : CompareState :=
  compare_loop hw_results sw_results n 0 { is_match := true, printed := [] }

/-! ## Derived definitions used in the statements -/

/-- A two-dimensional array with `H` rows of `W` entries each. -/
def shaped (H W : Nat) (x : List (List Int)) : Prop :=
  x.length = H ∧ ∀ i, i < H → (x.getD i []).length = W

/-- The sharpen stage of the kernel on a classification image `img_C`: the loop
`process_sharpen_filter` followed by the loop that writes `C_filt` to `out_r`. -/
def kernel_sharpen (H W : Nat) (img_C : List (List Int)) (out_r : List Int) : List Int :=
  write_result H W (process_sharpen_filter H W img_C) out_r

/-- The value `process_sharpen_filter` stores in `C_filt[i][j]` (vadd.cpp lines 112-124). -/
def sharpen_px (H W : Nat) (img_C : List (List Int)) (i j : Nat) : Int :=
  if i = 0 ∨ i = H - 1 ∨ j = 0 ∨ j = W - 1 then rd2 img_C i j
  else clip (stencil (rd2 img_C i j) (rd2 img_C (i - 1) j) (rd2 img_C (i + 1) j)
    (rd2 img_C i (j - 1)) (rd2 img_C i (j + 1))) 0 255

/-- The value the sharpen loop of `software_reference` stores in `C_Ref[i * W + j]`
(host.cpp lines 45-57). -/
def sw_sharpen_px (H W : Nat) (temp_C : List Int) (i j : Nat) : Int :=
  if i = 0 ∨ i = H - 1 ∨ j = 0 ∨ j = W - 1 then rd temp_C (i * W + j)
  else clip_sw (stencil (rd temp_C (i * W + j)) (rd temp_C ((i - 1) * W + j))
    (rd temp_C ((i + 1) * W + j)) (rd temp_C (i * W + (j - 1))) (rd temp_C (i * W + (j + 1))))

/-- The output sample of the pipeline at pixel `(i, j)` as a function of the two
source images: the body of the sharpen loop on the classification samples. -/
def pipeline_px (H W : Nat) (A B : List Int) (i j : Nat) : Int :=
  if i = 0 ∨ i = H - 1 ∨ j = 0 ∨ j = W - 1 then
    diff_post (rd A (i * W + j)) (rd B (i * W + j))
  else
    clip (stencil (diff_post (rd A (i * W + j)) (rd B (i * W + j)))
      (diff_post (rd A ((i - 1) * W + j)) (rd B ((i - 1) * W + j)))
      (diff_post (rd A ((i + 1) * W + j)) (rd B ((i + 1) * W + j)))
      (diff_post (rd A (i * W + (j - 1))) (rd B (i * W + (j - 1))))
      (diff_post (rd A (i * W + (j + 1))) (rd B (i * W + (j + 1))))) 0 255

/-- The function `clamp` of section 4.2 of the specification, over the unbounded
integers: `lo` if `x < lo`, `hi` if `x > hi`, else `x`. -/
def clamp (x lo hi : Int) : Int := if x < lo then lo else if x > hi then hi else x

/-! ## The same computation over the unbounded integers -/

/-- The body of the difference-posterize loops with the difference and its absolute value
taken in the unbounded integers, without reduction to 32 bits. -/
def diff_post_exact (a b : Int) : Int :=
  let diff := a - b
  let abs_diff := |diff|
  if abs_diff < T1 then 0
  else if abs_diff < T2 then 128
  else 255

/-- The output sample of the pipeline at pixel `(i, j)` with every operation taken in the
unbounded integers, without reduction to 32 bits. -/
def pipeline_px_exact (H W : Nat) (A B : List Int) (i j : Nat) : Int :=
  if i = 0 ∨ i = H - 1 ∨ j = 0 ∨ j = W - 1 then
    diff_post_exact (rd A (i * W + j)) (rd B (i * W + j))
  else
    clamp (5 * diff_post_exact (rd A (i * W + j)) (rd B (i * W + j))
      - diff_post_exact (rd A ((i - 1) * W + j)) (rd B ((i - 1) * W + j))
      - diff_post_exact (rd A ((i + 1) * W + j)) (rd B ((i + 1) * W + j))
      - diff_post_exact (rd A (i * W + (j - 1))) (rd B (i * W + (j - 1)))
      - diff_post_exact (rd A (i * W + (j + 1))) (rd B (i * W + (j + 1)))) 0 255

/-- Every 32-bit operation of `(5 * center) - up - down - left - right` gives the exact
integer result: the product and each of the four subtractions. -/
def stencil_ops_exact (c u d l r : Int) : Prop :=
  mul32 5 c = 5 * c ∧
  sub32 (5 * c) u = 5 * c - u ∧
  sub32 (5 * c - u) d = 5 * c - u - d ∧
  sub32 (5 * c - u - d) l = 5 * c - u - d - l ∧
  sub32 (5 * c - u - d - l) r = 5 * c - u - d - l - r

/-! ## What a call reports -/

/-- What a call of one of the two operations reports to its caller: the error `InvalidInput`
of section 7 of the specification, or the output image. -/
inductive Outcome where
  | InvalidInput : Outcome
  | image (out : List Int) : Outcome
deriving DecidableEq

/-- A call of `software_reference`: the function is `void`, compares no length and has no
`throw` or error return, so it returns normally with `C_Ref` filled. -/
def software_reference_call (H W : Nat) (A B C_Ref : List Int) : Outcome :=
  Outcome.image (software_reference H W A B C_Ref)

/-- A call of the kernel `IMAGE_DIFF_POSTERIZE`: its arguments are bare `int *` pointers
without a length, and it returns normally with `out_r` filled. -/
def IMAGE_DIFF_POSTERIZE_call (H W : Nat) (in1 in2 out_r : List Int) : Outcome :=
  Outcome.image (IMAGE_DIFF_POSTERIZE H W in1 in2 out_r)

/-! ## Memory accesses -/

/-- The buffers of the kernel (`in1`, `in2`, `out_r` and the four local arrays) and of
`software_reference` (`A`, `B`, `temp_C`, `C_Ref`). -/
inductive Buf where
  | in1 : Buf
  | in2 : Buf
  | out_r : Buf
  | img_A : Buf
  | img_B : Buf
  | img_C : Buf
  | C_filt : Buf
  | A : Buf
  | B : Buf
  | temp_C : Buf
  | C_Ref : Buf
deriving DecidableEq

/-- One memory access: a read or a write of a flat buffer at an index, or of a local
two-dimensional array at a row and a column. -/
inductive Access where
  | read (b : Buf) (idx : Nat) : Access
  | write (b : Buf) (idx : Nat) : Access
  | read2 (b : Buf) (i j : Nat) : Access
  | write2 (b : Buf) (i j : Nat) : Access
deriving DecidableEq

/-- An access that stays inside its buffer, for flat buffers of `H * W` samples and local
arrays of `H` rows and `W` columns. -/
def in_bounds (H W : Nat) : Access → Prop
  | Access.read _ idx => idx < H * W
  | Access.write _ idx => idx < H * W
  | Access.read2 _ i j => i < H ∧ j < W
  | Access.write2 _ i j => i < H ∧ j < W

/-- The indices at which a trace writes the flat buffer `b`, in the order of the writes. -/
def writes_to (b : Buf) (tr : List Access) : List Nat :=
  tr.filterMap (fun a =>
    match a with
    | Access.write c idx => if c = b then some idx else none
    | _ => none)

/-- The first loop of `software_reference` (host.cpp lines 30-37) with the list of its
memory accesses, appended to `tr` in program order. -/
def sw_posterize_traced (H W : Nat) (A B : List Int) (tr : List Access) :
    List Int × List Access :=
  for_loop (fun i st =>
    (st.1.set i (diff_post_sw (rd A i) (rd B i)),
     st.2 ++ [Access.read Buf.A i, Access.read Buf.B i, Access.write Buf.temp_C i]))
    (H * W) (List.replicate (H * W) 0, tr)

/-- The sharpen loop of `software_reference` (host.cpp lines 40-59) with the list of its
memory accesses, appended to `tr` in program order. -/
def sw_sharpen_traced (H W : Nat) (temp_C C_Ref : List Int) (tr : List Access) :
    List Int × List Access :=
  for_loop (fun i st =>
    for_loop (fun j st =>
      let idx := i * W + j
      if i = 0 ∨ i = H - 1 ∨ j = 0 ∨ j = W - 1 then
        (st.1.set idx (rd temp_C idx),
         st.2 ++ [Access.read Buf.temp_C idx, Access.write Buf.C_Ref idx])
      else
        let center := rd temp_C idx
        let up := rd temp_C ((i - 1) * W + j)
        let down := rd temp_C ((i + 1) * W + j)
        let left := rd temp_C (i * W + (j - 1))
        let right := rd temp_C (i * W + (j + 1))
        let val := stencil center up down left right
        (st.1.set idx (clip_sw val),
         st.2 ++ [Access.read Buf.temp_C idx, Access.read Buf.temp_C ((i - 1) * W + j),
           Access.read Buf.temp_C ((i + 1) * W + j), Access.read Buf.temp_C (i * W + (j - 1)),
           Access.read Buf.temp_C (i * W + (j + 1)), Access.write Buf.C_Ref idx])) W st)
    H (C_Ref, tr)

/-- The function `software_reference` with the list of its memory accesses. -/
def software_reference_traced (H W : Nat) (A B C_Ref : List Int) : List Int × List Access :=
  let p := sw_posterize_traced H W A B []
  sw_sharpen_traced H W p.1 C_Ref p.2

/-- Loops `read_A` and `read_B` (vadd.cpp lines 68-83) with their memory accesses: `src` names
the global buffer that is read and `dst` the local array that is written. -/
def read_img_traced (src dst : Buf) (H W : Nat) (inp : List Int) (tr : List Access) :
    List (List Int) × List Access :=
  for_loop (fun i st =>
    for_loop (fun j st =>
      (wr2 st.1 i j (rd inp (i * W + j)),
       st.2 ++ [Access.read src (i * W + j), Access.write2 dst i j])) W st)
    H (local2 H W, tr)

/-- Loop `process_diff_post` (vadd.cpp lines 86-104) with its memory accesses. -/
def process_diff_post_traced (H W : Nat) (img_A img_B : List (List Int)) (tr : List Access) :
    List (List Int) × List Access :=
  for_loop (fun i st =>
    for_loop (fun j st =>
      let val_a := rd2 img_A i j
      let val_b := rd2 img_B i j
      (wr2 st.1 i j (diff_post val_a val_b),
       st.2 ++ [Access.read2 Buf.img_A i j, Access.read2 Buf.img_B i j,
         Access.write2 Buf.img_C i j])) W st)
    H (local2 H W, tr)

/-- Loop `process_sharpen_filter` (vadd.cpp lines 107-126) with its memory accesses. -/
def process_sharpen_filter_traced (H W : Nat) (img_C : List (List Int)) (tr : List Access) :
    List (List Int) × List Access :=
  for_loop (fun i st =>
    for_loop (fun j st =>
      if i = 0 ∨ i = H - 1 ∨ j = 0 ∨ j = W - 1 then
        (wr2 st.1 i j (rd2 img_C i j),
         st.2 ++ [Access.read2 Buf.img_C i j, Access.write2 Buf.C_filt i j])
      else
        let center := rd2 img_C i j
        let up := rd2 img_C (i - 1) j
        let down := rd2 img_C (i + 1) j
        let left := rd2 img_C i (j - 1)
        let right := rd2 img_C i (j + 1)
        let val := stencil center up down left right
        (wr2 st.1 i j (clip val 0 255),
         st.2 ++ [Access.read2 Buf.img_C i j, Access.read2 Buf.img_C (i - 1) j,
           Access.read2 Buf.img_C (i + 1) j, Access.read2 Buf.img_C i (j - 1),
           Access.read2 Buf.img_C i (j + 1), Access.write2 Buf.C_filt i j])) W st)
    H (local2 H W, tr)

/-- The last loop of the kernel (vadd.cpp lines 131-136) with its memory accesses. -/
def write_result_traced (H W : Nat) (C_filt : List (List Int)) (out_r : List Int)
    (tr : List Access) : List Int × List Access :=
  for_loop (fun i st =>
    for_loop (fun j st =>
      (st.1.set (i * W + j) (rd2 C_filt i j),
       st.2 ++ [Access.read2 Buf.C_filt i j, Access.write Buf.out_r (i * W + j)])) W st)
    H (out_r, tr)

/-- The kernel `IMAGE_DIFF_POSTERIZE` with the list of its memory accesses. -/
def IMAGE_DIFF_POSTERIZE_traced (H W : Nat) (in1 in2 out_r : List Int) :
    List Int × List Access :=
  let a := read_img_traced Buf.in1 Buf.img_A H W in1 []
  let b := read_img_traced Buf.in2 Buf.img_B H W in2 a.2
  let c := process_diff_post_traced H W a.1 b.1 b.2
  let f := process_sharpen_filter_traced H W c.1 c.2
  write_result_traced H W f.1 out_r f.2

/-! ## Loops that fill a buffer -/

theorem getD_set_eq {α : Type} (l : List α) (i k : Nat) (v d : α) :
    (l.set i v).getD k d = if i = k ∧ i < l.length then v else l.getD k d := by
  simp only [List.getD_eq_getElem?_getD, List.getElem?_set]
  by_cases h : i = k
  · by_cases h2 : i < l.length
    · subst h
      simp [h2]
    · subst h
      have h3 : l.length ≤ i := Nat.le_of_not_lt h2
      simp [h2, List.getElem?_eq_none h3]
  · simp [h]

theorem idx_lt {H W i j : Nat} (hi : i < H) (hj : j < W) : i * W + j < H * W := by
  have h1 : (i + 1) * W ≤ H * W := Nat.mul_le_mul_right W hi
  have h2 : (i + 1) * W = i * W + W := by ring
  omega

theorem idx_inj {W i j i2 j2 : Nat} (hj : j < W) (hj2 : j2 < W)
    (h : i * W + j = i2 * W + j2) : i = i2 ∧ j = j2 := by
  have hm : (i * W + j) % W = (i2 * W + j2) % W := by rw [h]
  have hd : (i * W + j) / W = (i2 * W + j2) / W := by rw [h]
  have hW : 0 < W := by omega
  rw [Nat.mul_comm i W, Nat.mul_comm i2 W] at hm hd
  rw [Nat.mul_add_mod, Nat.mul_add_mod, Nat.mod_eq_of_lt hj, Nat.mod_eq_of_lt hj2] at hm
  rw [Nat.mul_add_div hW, Nat.mul_add_div hW, Nat.div_eq_of_lt hj, Nat.div_eq_of_lt hj2] at hd
  omega

/-- Two nested counted loops whose body writes cell `(i, j)` of a store with the
value `g i j` leave a store that holds `g i j` in every cell `(i, j)`. -/
theorem nested_fill {σ : Type} (rdf : σ → Nat → Nat → Int) (wrf : σ → Nat → Nat → Int → σ)
    (ok : σ → Prop) (H W : Nat)
    (hok : ∀ s i j v, ok s → i < H → j < W → ok (wrf s i j v))
    (hrd : ∀ s i j v i2 j2, ok s → i < H → j < W → i2 < H → j2 < W →
      rdf (wrf s i j v) i2 j2 = if i2 = i ∧ j2 = j then v else rdf s i2 j2)
    (g : Nat → Nat → Int) (body : Nat → Nat → σ → σ)
    (hbody : ∀ i j s, i < H → j < W → body i j s = wrf s i j (g i j))
    (s0 : σ) (h0 : ok s0) :
    ok (for_loop (fun i s => for_loop (fun j s => body i j s) W s) H s0) ∧
    ∀ i j, i < H → j < W →
      rdf (for_loop (fun i s => for_loop (fun j s => body i j s) W s) H s0) i j = g i j := by
  have inner : ∀ i, i < H → ∀ s, ok s → ∀ n, n ≤ W →
      ok (for_loop (fun j s => body i j s) n s) ∧
      ∀ i2 j2, i2 < H → j2 < W →
        rdf (for_loop (fun j s => body i j s) n s) i2 j2
          = if i2 = i ∧ j2 < n then g i j2 else rdf s i2 j2 := by
    intro i hi s hs n
    induction n with
    | zero => intro _; exact ⟨hs, fun i2 j2 _ _ => by simp [for_loop]⟩
    | succ n ih =>
      intro hn
      have hn2 : n < W := hn
      obtain ⟨ihok, ihrd⟩ := ih (Nat.le_of_lt hn2)
      show ok (body i n _) ∧ ∀ i2 j2, i2 < H → j2 < W → rdf (body i n _) i2 j2 = _
      rw [hbody i n _ hi hn2]
      refine ⟨hok _ _ _ _ ihok hi hn2, fun i2 j2 hi2 hj2 => ?_⟩
      rw [hrd _ _ _ _ _ _ ihok hi hn2 hi2 hj2, ihrd i2 j2 hi2 hj2]
      by_cases h1 : i2 = i
      · by_cases h2 : j2 = n
        · subst h1; subst h2; simp
        · by_cases h3 : j2 < n
          · have : j2 < n + 1 := by omega
            simp [h1, h2, h3, this]
          · have : ¬ j2 < n + 1 := by omega
            simp [h1, h2, h3, this]
      · simp [h1]
  have outer : ∀ k, k ≤ H →
      ok (for_loop (fun i s => for_loop (fun j s => body i j s) W s) k s0) ∧
      ∀ i2 j2, i2 < H → j2 < W →
        rdf (for_loop (fun i s => for_loop (fun j s => body i j s) W s) k s0) i2 j2
          = if i2 < k then g i2 j2 else rdf s0 i2 j2 := by
    intro k
    induction k with
    | zero => intro _; exact ⟨h0, fun i2 j2 _ _ => by simp [for_loop]⟩
    | succ k ih =>
      intro hk
      have hk2 : k < H := hk
      obtain ⟨ihok, ihrd⟩ := ih (Nat.le_of_lt hk2)
      obtain ⟨iok, ird⟩ := inner k hk2 _ ihok W (Nat.le_refl W)
      refine ⟨iok, fun i2 j2 hi2 hj2 => ?_⟩
      show rdf (for_loop (fun j s => body k j s) W _) i2 j2 = _
      rw [ird i2 j2 hi2 hj2, ihrd i2 j2 hi2 hj2]
      by_cases h1 : i2 = k
      · subst h1; simp [hj2]
      · by_cases h3 : i2 < k
        · have : i2 < k + 1 := by omega
          simp [h1, h3, this]
        · have : ¬ i2 < k + 1 := by omega
          simp [h1, h3, this]
  obtain ⟨o1, o2⟩ := outer H (Nat.le_refl H)
  exact ⟨o1, fun i j hi hj => by rw [o2 i j hi hj]; simp [hi]⟩

/-- A single counted loop that stores `f i` at index `i` of a buffer of `n` samples. -/
theorem flat_fill (f : Nat → Int) (n : Nat) (t0 : List Int) (h0 : t0.length = n) :
    (for_loop (fun i t => t.set i (f i)) n t0).length = n ∧
    ∀ i, i < n → rd (for_loop (fun i t => t.set i (f i)) n t0) i = f i := by
  have step : ∀ k, k ≤ n →
      (for_loop (fun i t => t.set i (f i)) k t0).length = n ∧
      ∀ i, rd (for_loop (fun i t => t.set i (f i)) k t0) i
        = if i < k then f i else rd t0 i := by
    intro k
    induction k with
    | zero => intro _; exact ⟨h0, fun i => by simp [for_loop]⟩
    | succ k ih =>
      intro hk
      obtain ⟨ihlen, ihrd⟩ := ih (Nat.le_of_succ_le hk)
      refine ⟨by simp [for_loop, ihlen], fun i => ?_⟩
      show rd (List.set _ k (f k)) i = _
      unfold rd
      rw [getD_set_eq, ihlen]
      have ihrd2 := ihrd i
      unfold rd at ihrd2
      rw [ihrd2]
      by_cases h1 : k = i
      · subst h1
        have : k < n := hk
        simp [this]
      · by_cases h2 : i < k
        · have : i < k + 1 := by omega
          simp [h1, h2, this]
        · have : ¬ i < k + 1 := by omega
          simp [h1, h2, this]
  obtain ⟨s1, s2⟩ := step n (Nat.le_refl n)
  exact ⟨s1, fun i hi => by rw [s2 i]; simp [hi]⟩

theorem shaped_local2 (H W : Nat) : shaped H W (local2 H W) := by
  refine ⟨by simp [local2], fun i hi => ?_⟩
  simp [local2, List.getD_eq_getElem?_getD, List.getElem?_replicate, hi]

theorem shaped_wr2 {H W : Nat} {x : List (List Int)} (hx : shaped H W x) (i j : Nat) (v : Int) :
    shaped H W (wr2 x i j v) := by
  obtain ⟨hlen, hrow⟩ := hx
  refine ⟨by simp [wr2, hlen], fun i2 hi2 => ?_⟩
  unfold wr2
  rw [getD_set_eq]
  by_cases h : i = i2 ∧ i < x.length
  · rw [if_pos h, List.length_set]
    exact hrow i (by omega)
  · rw [if_neg h]
    exact hrow i2 hi2

theorem rd2_wr2 {H W : Nat} {x : List (List Int)} (hx : shaped H W x) {i j : Nat} (v : Int)
    (hi : i < H) (hj : j < W) (i2 j2 : Nat) :
    rd2 (wr2 x i j v) i2 j2 = if i2 = i ∧ j2 = j then v else rd2 x i2 j2 := by
  obtain ⟨hlen, hrow⟩ := hx
  unfold rd2 wr2
  rw [getD_set_eq]
  by_cases h1 : i = i2
  · subst h1
    have hi2 : i < x.length := by omega
    rw [if_pos ⟨rfl, hi2⟩, getD_set_eq, hrow i hi]
    by_cases h2 : j = j2
    · subst h2; simp [hj]
    · have h3 : ¬ j2 = j := fun h => h2 h.symm
      simp [h2, h3]
  · have h3 : ¬ i2 = i := fun h => h1 h.symm
    simp [h1, h3]

/-- Nested loops that fill a local two-dimensional array. -/
theorem fill2 (H W : Nat) (g : Nat → Nat → Int) (body : Nat → Nat → List (List Int) → List (List Int))
    (hbody : ∀ i j s, i < H → j < W → body i j s = wr2 s i j (g i j)) :
    shaped H W (for_loop (fun i s => for_loop (fun j s => body i j s) W s) H (local2 H W)) ∧
    ∀ i j, i < H → j < W →
      rd2 (for_loop (fun i s => for_loop (fun j s => body i j s) W s) H (local2 H W)) i j
        = g i j :=
  nested_fill rd2 wr2 (shaped H W) H W
    (fun _ i j v hs _ _ => shaped_wr2 hs i j v)
    (fun _ _ _ v i2 j2 hs hi hj _ _ => rd2_wr2 hs v hi hj i2 j2)
    g body hbody (local2 H W) (shaped_local2 H W)

/-- Nested loops that fill a flat buffer of `H * W` samples in row-major order. -/
theorem fill_flat (H W : Nat) (g : Nat → Nat → Int) (body : Nat → Nat → List Int → List Int)
    (hbody : ∀ i j s, i < H → j < W → body i j s = s.set (i * W + j) (g i j))
    (out : List Int) (hout : out.length = H * W) :
    (for_loop (fun i s => for_loop (fun j s => body i j s) W s) H out).length = H * W ∧
    ∀ i j, i < H → j < W →
      rd (for_loop (fun i s => for_loop (fun j s => body i j s) W s) H out) (i * W + j)
        = g i j := by
  refine nested_fill (fun s i j => rd s (i * W + j)) (fun s i j v => s.set (i * W + j) v)
    (fun s => s.length = H * W) H W
    (fun s i j v hs _ _ => by simp [hs]) ?_ g body hbody out hout
  intro s i j v i2 j2 hs hi hj _ hj2
  show rd (s.set (i * W + j) v) (i2 * W + j2) = _
  unfold rd
  rw [getD_set_eq]
  have hlt : i * W + j < s.length := by rw [hs]; exact idx_lt hi hj
  by_cases h : i * W + j = i2 * W + j2
  · obtain ⟨e1, e2⟩ := idx_inj hj hj2 h
    simp [e1, e2, hlt, h]
    intro h3
    rw [e1, e2] at hlt
    omega
  · have h3 : ¬ (i2 = i ∧ j2 = j) := fun ⟨a, b⟩ => h (by rw [a, b])
    simp [h, h3]

theorem flat_ext {H W : Nat} {l1 l2 : List Int} (h1 : l1.length = H * W) (h2 : l2.length = H * W)
    (h : ∀ i j, i < H → j < W → rd l1 (i * W + j) = rd l2 (i * W + j)) : l1 = l2 := by
  apply List.ext_getElem (by rw [h1, h2])
  intro n hn1 hn2
  have hW : 0 < W := by
    rcases Nat.eq_zero_or_pos W with h0 | h0
    · rw [h1, h0] at hn1; simp at hn1
    · exact h0
  have hdiv : n / W < H := by
    rw [Nat.div_lt_iff_lt_mul hW]; omega
  have hmod : n % W < W := Nat.mod_lt n hW
  have hn : n / W * W + n % W = n := by
    rw [Nat.mul_comm]; exact Nat.div_add_mod n W
  have := h (n / W) (n % W) hdiv hmod
  rw [hn] at this
  unfold rd at this
  rw [List.getD_eq_getElem l1 0 hn1, List.getD_eq_getElem l2 0 hn2] at this
  exact this

/-! ## What each loop computes -/

theorem read_img_spec (H W : Nat) (inp : List Int) :
    shaped H W (read_img H W inp) ∧
    ∀ i j, i < H → j < W → rd2 (read_img H W inp) i j = rd inp (i * W + j) :=
  fill2 H W (fun i j => rd inp (i * W + j)) (fun i j img => wr2 img i j (rd inp (i * W + j)))
    (fun _ _ _ _ _ => rfl)

theorem process_diff_post_spec (H W : Nat) (img_A img_B : List (List Int)) :
    shaped H W (process_diff_post H W img_A img_B) ∧
    ∀ i j, i < H → j < W →
      rd2 (process_diff_post H W img_A img_B) i j = diff_post (rd2 img_A i j) (rd2 img_B i j) :=
  fill2 H W (fun i j => diff_post (rd2 img_A i j) (rd2 img_B i j))
    (fun i j img_C => wr2 img_C i j (diff_post (rd2 img_A i j) (rd2 img_B i j)))
    (fun _ _ _ _ _ => rfl)

theorem kernel_img_C_spec (H W : Nat) (in1 in2 : List Int) :
    shaped H W (kernel_img_C H W in1 in2) ∧
    ∀ i j, i < H → j < W →
      rd2 (kernel_img_C H W in1 in2) i j
        = diff_post (rd in1 (i * W + j)) (rd in2 (i * W + j)) := by
  refine ⟨(process_diff_post_spec H W _ _).1, fun i j hi hj => ?_⟩
  unfold kernel_img_C
  rw [(process_diff_post_spec H W _ _).2 i j hi hj, (read_img_spec H W in1).2 i j hi hj,
    (read_img_spec H W in2).2 i j hi hj]

theorem process_sharpen_filter_spec (H W : Nat) (img_C : List (List Int)) :
    shaped H W (process_sharpen_filter H W img_C) ∧
    ∀ i j, i < H → j < W →
      rd2 (process_sharpen_filter H W img_C) i j = sharpen_px H W img_C i j := by
  refine fill2 H W (sharpen_px H W img_C) _ ?_
  intro i j s _ _
  unfold sharpen_px
  split <;> rfl

theorem write_result_spec (H W : Nat) (C_filt : List (List Int)) (out_r : List Int)
    (hout : out_r.length = H * W) :
    (write_result H W C_filt out_r).length = H * W ∧
    ∀ i j, i < H → j < W → rd (write_result H W C_filt out_r) (i * W + j) = rd2 C_filt i j :=
  fill_flat H W (fun i j => rd2 C_filt i j) (fun i j out_r => out_r.set (i * W + j) (rd2 C_filt i j))
    (fun _ _ _ _ _ => rfl) out_r hout

theorem sw_posterize_spec (H W : Nat) (A B : List Int) :
    (sw_posterize H W A B).length = H * W ∧
    ∀ i, i < H * W → rd (sw_posterize H W A B) i = diff_post_sw (rd A i) (rd B i) :=
  flat_fill (fun i => diff_post_sw (rd A i) (rd B i)) (H * W) (List.replicate (H * W) 0)
    (by simp)

theorem sw_sharpen_spec (H W : Nat) (temp_C C_Ref : List Int) (hout : C_Ref.length = H * W) :
    (sw_sharpen H W temp_C C_Ref).length = H * W ∧
    ∀ i j, i < H → j < W →
      rd (sw_sharpen H W temp_C C_Ref) (i * W + j) = sw_sharpen_px H W temp_C i j := by
  refine fill_flat H W (sw_sharpen_px H W temp_C) _ ?_ C_Ref hout
  intro i j s _ _
  unfold sw_sharpen_px
  split <;> rfl

/-! ## Arithmetic of one pixel -/

theorem diff_post_eq_sw (a b : Int) : diff_post a b = diff_post_sw a b := by
  unfold diff_post diff_post_sw std_abs sub32 neg32 wrap32 T1 T2
  simp only []
  split_ifs <;> omega

theorem diff_post_levels (a b : Int) :
    diff_post a b = 0 ∨ diff_post a b = 128 ∨ diff_post a b = 255 := by
  unfold diff_post
  simp only []
  split_ifs <;> simp

theorem diff_post_low (a b : Int) (h : |a - b| < T1) : diff_post a b = 0 := by
  unfold T1 at h
  rw [abs_lt] at h
  unfold diff_post sub32 neg32 wrap32 T1 T2
  simp only []
  split_ifs <;> omega

theorem diff_post_mid (a b : Int) (h1 : T1 ≤ |a - b|) (h2 : |a - b| < T2) :
    diff_post a b = 128 := by
  unfold T1 at h1
  unfold T2 at h2
  rw [le_abs] at h1
  rw [abs_lt] at h2
  unfold diff_post sub32 neg32 wrap32 T1 T2
  simp only []
  split_ifs <;> omega

theorem diff_post_high (a b : Int) (h1 : T2 ≤ |a - b|) (h2 : |a - b| ≤ INT_MAX) :
    diff_post a b = 255 := by
  unfold T2 at h1
  unfold INT_MAX at h2
  rw [le_abs] at h1
  rw [abs_le] at h2
  unfold diff_post sub32 neg32 wrap32 T1 T2
  simp only []
  split_ifs <;> omega

theorem stencil_exact (c u d l r : Int) (h1 : INT_MIN ≤ 5 * c - u - d - l - r)
    (h2 : 5 * c - u - d - l - r ≤ INT_MAX) : stencil c u d l r = 5 * c - u - d - l - r := by
  unfold INT_MIN at h1
  unfold INT_MAX at h2
  unfold stencil sub32 mul32 wrap32
  omega

theorem rd_replicate {n i : Nat} (v : Int) (h : i < n) : rd (List.replicate n v) i = v := by
  simp [rd, List.getD_eq_getElem?_getD, List.getElem?_replicate, h]

theorem kernel_sharpen_spec (H W : Nat) (img_C : List (List Int)) (out_r : List Int)
    (hout : out_r.length = H * W) :
    (kernel_sharpen H W img_C out_r).length = H * W ∧
    ∀ i j, i < H → j < W →
      rd (kernel_sharpen H W img_C out_r) (i * W + j) = sharpen_px H W img_C i j := by
  refine ⟨(write_result_spec H W _ out_r hout).1, fun i j hi hj => ?_⟩
  unfold kernel_sharpen
  rw [(write_result_spec H W _ out_r hout).2 i j hi hj,
    (process_sharpen_filter_spec H W img_C).2 i j hi hj]

theorem div_mod_idx {H W i : Nat} (hi : i < H * W) :
    i / W < H ∧ i % W < W ∧ i / W * W + i % W = i := by
  have hW : 0 < W := by
    rcases Nat.eq_zero_or_pos W with h0 | h0
    · rw [h0] at hi; simp at hi
    · exact h0
  refine ⟨?_, Nat.mod_lt i hW, ?_⟩
  · rw [Nat.div_lt_iff_lt_mul hW]; exact hi
  · rw [Nat.mul_comm]; exact Nat.div_add_mod i W

theorem clip_eq_clamp (x : Int) : clip x 0 255 = clamp x 0 255 := rfl

theorem clip_sw_eq_clamp (x : Int) : clip_sw x = clamp x 0 255 := rfl

theorem interior_not_border {H W row col : Nat} (hr0 : 0 < row) (hr1 : row < H - 1)
    (hc0 : 0 < col) (hc1 : col < W - 1) :
    ¬ (row = 0 ∨ row = H - 1 ∨ col = 0 ∨ col = W - 1) := by omega

theorem kernel_out_spec (H W : Nat) (A B out_r : List Int) (hO : out_r.length = H * W) :
    (IMAGE_DIFF_POSTERIZE H W A B out_r).length = H * W ∧
    ∀ i j, i < H → j < W →
      rd (IMAGE_DIFF_POSTERIZE H W A B out_r) (i * W + j) = pipeline_px H W A B i j := by
  have hk := kernel_sharpen_spec H W (kernel_img_C H W A B) out_r hO
  refine ⟨hk.1, fun i j hi hj => ?_⟩
  have hc := (kernel_img_C_spec H W A B).2
  show rd (kernel_sharpen H W (kernel_img_C H W A B) out_r) (i * W + j) = _
  rw [hk.2 i j hi hj]
  unfold sharpen_px pipeline_px
  by_cases hb : i = 0 ∨ i = H - 1 ∨ j = 0 ∨ j = W - 1
  · rw [if_pos hb, if_pos hb, hc i j hi hj]
  · rw [if_neg hb, if_neg hb, hc i j hi hj, hc (i - 1) j (by omega) hj,
      hc (i + 1) j (by omega) hj, hc i (j - 1) hi (by omega), hc i (j + 1) hi (by omega)]

theorem sw_out_spec (H W : Nat) (A B C_Ref : List Int) (hR : C_Ref.length = H * W) :
    (software_reference H W A B C_Ref).length = H * W ∧
    ∀ i j, i < H → j < W →
      rd (software_reference H W A B C_Ref) (i * W + j) = pipeline_px H W A B i j := by
  have hk := sw_sharpen_spec H W (sw_posterize H W A B) C_Ref hR
  refine ⟨hk.1, fun i j hi hj => ?_⟩
  have hc : ∀ i j, i < H → j < W →
      rd (sw_posterize H W A B) (i * W + j)
        = diff_post (rd A (i * W + j)) (rd B (i * W + j)) := by
    intro i j hi hj
    rw [(sw_posterize_spec H W A B).2 _ (idx_lt hi hj), diff_post_eq_sw]
  show rd (sw_sharpen H W (sw_posterize H W A B) C_Ref) (i * W + j) = _
  rw [hk.2 i j hi hj]
  unfold sw_sharpen_px pipeline_px
  by_cases hb : i = 0 ∨ i = H - 1 ∨ j = 0 ∨ j = W - 1
  · rw [if_pos hb, if_pos hb, hc i j hi hj]
  · rw [if_neg hb, if_neg hb, hc i j hi hj, hc (i - 1) j (by omega) hj,
      hc (i + 1) j (by omega) hj, hc i (j - 1) hi (by omega), hc i (j + 1) hi (by omega)]
    rfl

theorem diff_post_symm (a b : Int) : diff_post a b = diff_post b a := by
  unfold diff_post sub32 neg32 wrap32 T1 T2
  simp only []
  split_ifs <;> omega

theorem shaped_ext {H W : Nat} {x y : List (List Int)} (hx : shaped H W x) (hy : shaped H W y)
    (h : ∀ i j, i < H → j < W → rd2 x i j = rd2 y i j) : x = y := by
  obtain ⟨hxl, hxr⟩ := hx
  obtain ⟨hyl, hyr⟩ := hy
  apply List.ext_getElem (by rw [hxl, hyl])
  intro i hi1 hi2
  have hi : i < H := by omega
  have hxi := hxr i hi
  have hyi := hyr i hi
  have hij := h i
  unfold rd2 at hij
  rw [List.getD_eq_getElem x [] hi1] at hxi hij
  rw [List.getD_eq_getElem y [] hi2] at hyi hij
  apply List.ext_getElem (by rw [hxi, hyi])
  intro j hj1 hj2
  have := hij j hi (by omega)
  rw [List.getD_eq_getElem _ 0 hj1, List.getD_eq_getElem _ 0 hj2] at this
  exact this

theorem clip_range (x : Int) : 0 ≤ clip x 0 255 ∧ clip x 0 255 ≤ 255 := by
  unfold clip
  split_ifs <;> omega

theorem pipeline_px_range (H W : Nat) (A B : List Int) (i j : Nat) :
    0 ≤ pipeline_px H W A B i j ∧ pipeline_px H W A B i j ≤ 255 := by
  unfold pipeline_px
  split
  · rcases diff_post_levels (rd A (i * W + j)) (rd B (i * W + j)) with h | h | h <;>
      rw [h] <;> decide
  · exact clip_range _

theorem pipeline_px_uniform (H W : Nat) (A B : List Int) (L : Int) (hL0 : 0 ≤ L) (hL1 : L ≤ 255)
    (hu : ∀ i, i < H * W → diff_post (rd A i) (rd B i) = L) (i j : Nat) (hi : i < H)
    (hj : j < W) : pipeline_px H W A B i j = L := by
  unfold pipeline_px
  by_cases hb : i = 0 ∨ i = H - 1 ∨ j = 0 ∨ j = W - 1
  · rw [if_pos hb, hu _ (idx_lt hi hj)]
  · rw [if_neg hb, hu _ (idx_lt hi hj), hu _ (@idx_lt H W (i - 1) j (by omega) hj),
      hu _ (@idx_lt H W (i + 1) j (by omega) hj), hu _ (@idx_lt H W i (j - 1) hi (by omega)),
      hu _ (@idx_lt H W i (j + 1) hi (by omega))]
    rw [stencil_exact L L L L L (by unfold INT_MIN; omega) (by unfold INT_MAX; omega)]
    unfold clip
    split_ifs <;> omega

theorem compare_loop_spec (hw sw : List Int) (fuel : Nat) :
    ∀ (i : Nat) (st : CompareState),
    ((∀ k, i ≤ k → k < i + fuel → rd hw k = rd sw k) ∧ compare_loop hw sw fuel i st = st) ∨
    (∃ m, i ≤ m ∧ m < i + fuel ∧ rd hw m ≠ rd sw m ∧
      (∀ k, i ≤ k → k < m → rd hw k = rd sw k) ∧
      compare_loop hw sw fuel i st
        = { is_match := false, printed := st.printed ++ [(m, rd sw m, rd hw m)] }) := by
  induction fuel with
  | zero =>
    intro i st
    exact Or.inl ⟨fun k h1 h2 => by omega, rfl⟩
  | succ fuel ih =>
    intro i st
    by_cases h : rd hw i = rd sw i
    · have hstep : compare_loop hw sw (fuel + 1) i st = compare_loop hw sw fuel (i + 1) st := by
        simp [compare_loop, h]
      rw [hstep]
      rcases ih (i + 1) st with ⟨hall, heq⟩ | ⟨m, hm1, hm2, hne, hbefore, heq⟩
      · refine Or.inl ⟨fun k hk1 hk2 => ?_, heq⟩
        by_cases hki : k = i
        · rw [hki]; exact h
        · exact hall k (by omega) (by omega)
      · refine Or.inr ⟨m, by omega, by omega, hne, fun k hk1 hk2 => ?_, heq⟩
        by_cases hki : k = i
        · rw [hki]; exact h
        · exact hbefore k (by omega) hk2
    · refine Or.inr ⟨i, Nat.le_refl i, by omega, h, fun k hk1 hk2 => by omega, ?_⟩
      simp [compare_loop, h]

/-! ## The claims -/

/-- C1, as amended. For images `A`, `B` of `H * W` samples and every pixel index `i`, the
classification sample written by stage 1 of `software_reference` and the one written by
`process_diff_post` of the kernel are `0` if `|A[i] - B[i]| < T1`, `128` if
`T1 ≤ |A[i] - B[i]| < T2`, and `255` if `T2 ≤ |A[i] - B[i]| ≤ INT_MAX`; for all inputs
both samples are one of `0`, `128`, `255`. -/
theorem C1_diff_posterize (H W : Nat) (A B : List Int) (_hA : A.length = H * W)
    (_hB : B.length = H * W) (i : Nat) (hi : i < H * W) :
    (|rd A i - rd B i| < T1 →
      rd (sw_posterize H W A B) i = 0 ∧ rd2 (kernel_img_C H W A B) (i / W) (i % W) = 0) ∧
    (T1 ≤ |rd A i - rd B i| → |rd A i - rd B i| < T2 →
      rd (sw_posterize H W A B) i = 128 ∧
      rd2 (kernel_img_C H W A B) (i / W) (i % W) = 128) ∧
    (T2 ≤ |rd A i - rd B i| → |rd A i - rd B i| ≤ INT_MAX →
      rd (sw_posterize H W A B) i = 255 ∧
      rd2 (kernel_img_C H W A B) (i / W) (i % W) = 255) ∧
    (rd (sw_posterize H W A B) i = 0 ∨ rd (sw_posterize H W A B) i = 128 ∨
      rd (sw_posterize H W A B) i = 255) ∧
    (rd2 (kernel_img_C H W A B) (i / W) (i % W) = 0 ∨
      rd2 (kernel_img_C H W A B) (i / W) (i % W) = 128 ∨
      rd2 (kernel_img_C H W A B) (i / W) (i % W) = 255) := by
  obtain ⟨h1, h2, h3⟩ := div_mod_idx hi
  have hk := (kernel_img_C_spec H W A B).2 (i / W) (i % W) h1 h2
  rw [h3] at hk
  have hs := (sw_posterize_spec H W A B).2 i hi
  rw [hk, hs, ← diff_post_eq_sw]
  exact ⟨fun h => ⟨diff_post_low _ _ h, diff_post_low _ _ h⟩,
    fun h h2 => ⟨diff_post_mid _ _ h h2, diff_post_mid _ _ h h2⟩,
    fun h h2 => ⟨diff_post_high _ _ h h2, diff_post_high _ _ h h2⟩,
    diff_post_levels _ _, diff_post_levels _ _⟩

/-- C1, an instance: a 3 x 3 image pair whose centre pixel differs by 200 is classified
`255` at the centre by both implementations. -/
theorem C1_diff_posterize_witness :
    rd (sw_posterize 3 3 [0, 10, 40, 100, 200, 255, 96, 32, 31] [0, 0, 0, 0, 0, 0, 0, 0, 0]) 4
      = 255 ∧
    rd2 (kernel_img_C 3 3 [0, 10, 40, 100, 200, 255, 96, 32, 31] [0, 0, 0, 0, 0, 0, 0, 0, 0])
      (4 / 3) (4 % 3) = 255 :=
  (C1_diff_posterize 3 3 [0, 10, 40, 100, 200, 255, 96, 32, 31] [0, 0, 0, 0, 0, 0, 0, 0, 0]
    (by decide) (by decide) 4 (by decide)).2.2.1 (by decide) (by decide)

/-- C1 as stated fails: with `A[0] = 2147483647` and `B[0] = -1` in 128 x 128 images the
absolute difference is `2147483648 ≥ T2`, so the claim asks for `255`, but the 32-bit
subtraction wraps to `INT_MIN`, whose negation is `INT_MIN` again, and both
implementations store `0`. -/
theorem C1_overflow_counterexample :
    (List.replicate DATA_SIZE (2147483647 : Int)).length = HEIGHT * WIDTH ∧
    (List.replicate DATA_SIZE (-1 : Int)).length = HEIGHT * WIDTH ∧
    T2 ≤ |rd (List.replicate DATA_SIZE 2147483647) 0 - rd (List.replicate DATA_SIZE (-1)) 0| ∧
    rd (sw_posterize HEIGHT WIDTH (List.replicate DATA_SIZE 2147483647)
      (List.replicate DATA_SIZE (-1))) 0 = 0 ∧
    rd2 (kernel_img_C HEIGHT WIDTH (List.replicate DATA_SIZE 2147483647)
      (List.replicate DATA_SIZE (-1))) (0 / WIDTH) (0 % WIDTH) = 0 ∧
    rd (sw_posterize HEIGHT WIDTH (List.replicate DATA_SIZE 2147483647)
      (List.replicate DATA_SIZE (-1))) 0 ≠ 255 := by
  have h0 : (0 : Nat) < HEIGHT * WIDTH := by decide
  have hr1 : rd (List.replicate DATA_SIZE (2147483647 : Int)) 0 = 2147483647 :=
    rd_replicate _ h0
  have hr2 : rd (List.replicate DATA_SIZE (-1 : Int)) 0 = -1 := rd_replicate _ h0
  have hs : rd (sw_posterize HEIGHT WIDTH (List.replicate DATA_SIZE 2147483647)
      (List.replicate DATA_SIZE (-1))) 0 = 0 := by
    rw [(sw_posterize_spec HEIGHT WIDTH _ _).2 0 h0, hr1, hr2]; decide
  refine ⟨by simp [DATA_SIZE], by simp [DATA_SIZE], ?_, hs, ?_, ?_⟩
  · rw [hr1, hr2]; decide
  · have hk := (kernel_img_C_spec HEIGHT WIDTH (List.replicate DATA_SIZE 2147483647)
      (List.replicate DATA_SIZE (-1))).2 0 0 (by decide) (by decide)
    simp only [Nat.zero_mul, Nat.add_zero] at hk
    show rd2 _ 0 0 = 0
    rw [hk, hr1, hr2]; decide
  · rw [hs]; decide

/-- C2, as amended. For every classification image of `H * W` samples and every interior pixel
`(row, col)` at which the exact value `v = 5*C[row][col] - C[row-1][col] - C[row+1][col]
- C[row][col-1] - C[row][col+1]` lies in `[INT_MIN, INT_MAX]`, the output sample at
`row * W + col` of the sharpen stage of the kernel and of `software_reference` is
`clamp(v, 0, 255)`. -/
theorem C2_sharpen_interior (H W : Nat) (img_C : List (List Int)) (temp_C out_r C_Ref : List Int)
    (_hC : shaped H W img_C) (_hT : temp_C.length = H * W)
    (hO : out_r.length = H * W) (hR : C_Ref.length = H * W)
    (row col : Nat) (hr0 : 0 < row) (hr1 : row < H - 1) (hc0 : 0 < col) (hc1 : col < W - 1) :
    (INT_MIN ≤ 5 * rd2 img_C row col - rd2 img_C (row - 1) col - rd2 img_C (row + 1) col
        - rd2 img_C row (col - 1) - rd2 img_C row (col + 1) →
      5 * rd2 img_C row col - rd2 img_C (row - 1) col - rd2 img_C (row + 1) col
        - rd2 img_C row (col - 1) - rd2 img_C row (col + 1) ≤ INT_MAX →
      rd (kernel_sharpen H W img_C out_r) (row * W + col)
        = clamp (5 * rd2 img_C row col - rd2 img_C (row - 1) col - rd2 img_C (row + 1) col
            - rd2 img_C row (col - 1) - rd2 img_C row (col + 1)) 0 255) ∧
    (INT_MIN ≤ 5 * rd temp_C (row * W + col) - rd temp_C ((row - 1) * W + col)
        - rd temp_C ((row + 1) * W + col) - rd temp_C (row * W + (col - 1))
        - rd temp_C (row * W + (col + 1)) →
      5 * rd temp_C (row * W + col) - rd temp_C ((row - 1) * W + col)
        - rd temp_C ((row + 1) * W + col) - rd temp_C (row * W + (col - 1))
        - rd temp_C (row * W + (col + 1)) ≤ INT_MAX →
      rd (sw_sharpen H W temp_C C_Ref) (row * W + col)
        = clamp (5 * rd temp_C (row * W + col) - rd temp_C ((row - 1) * W + col)
            - rd temp_C ((row + 1) * W + col) - rd temp_C (row * W + (col - 1))
            - rd temp_C (row * W + (col + 1))) 0 255) := by
  have hrow : row < H := by omega
  have hcol : col < W := by omega
  have hnb := interior_not_border hr0 hr1 hc0 hc1
  constructor
  · intro h1 h2
    rw [(kernel_sharpen_spec H W img_C out_r hO).2 row col hrow hcol]
    unfold sharpen_px
    rw [if_neg hnb, stencil_exact _ _ _ _ _ h1 h2, clip_eq_clamp]
  · intro h1 h2
    rw [(sw_sharpen_spec H W temp_C C_Ref hR).2 row col hrow hcol]
    unfold sw_sharpen_px
    rw [if_neg hnb, stencil_exact _ _ _ _ _ h1 h2, clip_sw_eq_clamp]

/-- C2, an instance: on the 3 x 3 image with rows `0 128 0`, `255 128 0`, `0 128 0` the
centre pixel becomes `5*128 - 128 - 128 - 255 - 0 = 129`. -/
theorem C2_sharpen_interior_witness :
    rd (kernel_sharpen 3 3 [[0, 128, 0], [255, 128, 0], [0, 128, 0]] (List.replicate 9 0))
      (1 * 3 + 1) = 129 ∧
    rd (sw_sharpen 3 3 [0, 128, 0, 255, 128, 0, 0, 128, 0] (List.replicate 9 0))
      (1 * 3 + 1) = 129 :=
  ⟨(C2_sharpen_interior 3 3 [[0, 128, 0], [255, 128, 0], [0, 128, 0]]
      [0, 128, 0, 255, 128, 0, 0, 128, 0] (List.replicate 9 0) (List.replicate 9 0)
      (by unfold shaped; decide) (by decide) (by decide) (by decide)
      1 1 (by decide) (by decide) (by decide) (by decide)).1 (by decide) (by decide),
   (C2_sharpen_interior 3 3 [[0, 128, 0], [255, 128, 0], [0, 128, 0]]
      [0, 128, 0, 255, 128, 0, 0, 128, 0] (List.replicate 9 0) (List.replicate 9 0)
      (by unfold shaped; decide) (by decide) (by decide) (by decide)
      1 1 (by decide) (by decide) (by decide) (by decide)).2 (by decide) (by decide)⟩

/-- C2 as stated fails: in a 128 x 128 image that is `0` except for the sample `500000000`
at pixel `(1, 1)`, the claim asks for `clamp(2500000000, 0, 255) = 255` at that pixel, but
`5 * center` wraps to `-1794967296` in 32 bits and both sharpen loops store `0`. -/
theorem C2_overflow_counterexample :
    clamp (5 * rd2 (wr2 (local2 HEIGHT WIDTH) 1 1 500000000) 1 1
      - rd2 (wr2 (local2 HEIGHT WIDTH) 1 1 500000000) (1 - 1) 1
      - rd2 (wr2 (local2 HEIGHT WIDTH) 1 1 500000000) (1 + 1) 1
      - rd2 (wr2 (local2 HEIGHT WIDTH) 1 1 500000000) 1 (1 - 1)
      - rd2 (wr2 (local2 HEIGHT WIDTH) 1 1 500000000) 1 (1 + 1)) 0 255 = 255 ∧
    rd (kernel_sharpen HEIGHT WIDTH (wr2 (local2 HEIGHT WIDTH) 1 1 500000000)
      (List.replicate DATA_SIZE 0)) (1 * WIDTH + 1) = 0 ∧
    clamp (5 * rd ((List.replicate DATA_SIZE 0).set (1 * WIDTH + 1) 500000000) (1 * WIDTH + 1)
      - rd ((List.replicate DATA_SIZE 0).set (1 * WIDTH + 1) 500000000) ((1 - 1) * WIDTH + 1)
      - rd ((List.replicate DATA_SIZE 0).set (1 * WIDTH + 1) 500000000) ((1 + 1) * WIDTH + 1)
      - rd ((List.replicate DATA_SIZE 0).set (1 * WIDTH + 1) 500000000) (1 * WIDTH + (1 - 1))
      - rd ((List.replicate DATA_SIZE 0).set (1 * WIDTH + 1) 500000000) (1 * WIDTH + (1 + 1)))
      0 255 = 255 ∧
    rd (sw_sharpen HEIGHT WIDTH ((List.replicate DATA_SIZE 0).set (1 * WIDTH + 1) 500000000)
      (List.replicate DATA_SIZE 0)) (1 * WIDTH + 1) = 0 := by
  refine ⟨by decide, ?_, by decide, ?_⟩
  · rw [(kernel_sharpen_spec HEIGHT WIDTH _ _ (by simp [DATA_SIZE])).2 1 1 (by decide) (by decide)]
    decide
  · rw [(sw_sharpen_spec HEIGHT WIDTH _ _ (by simp [DATA_SIZE])).2 1 1 (by decide) (by decide)]
    decide

/-- C3. For every classification image and every border pixel (`row` in `{0, H-1}` or `col` in
`{0, W-1}`), the output sample of the sharpen stage of the kernel and of
`software_reference` is the classification sample at that pixel, unchanged. -/
theorem C3_border_pass_through (H W : Nat) (img_C : List (List Int))
    (temp_C out_r C_Ref : List Int)
    (_hC : shaped H W img_C) (_hT : temp_C.length = H * W)
    (hO : out_r.length = H * W) (hR : C_Ref.length = H * W)
    (row col : Nat) (hrow : row < H) (hcol : col < W)
    (hb : row = 0 ∨ row = H - 1 ∨ col = 0 ∨ col = W - 1) :
    rd (kernel_sharpen H W img_C out_r) (row * W + col) = rd2 img_C row col ∧
    rd (sw_sharpen H W temp_C C_Ref) (row * W + col) = rd temp_C (row * W + col) := by
  constructor
  · rw [(kernel_sharpen_spec H W img_C out_r hO).2 row col hrow hcol]
    unfold sharpen_px
    rw [if_pos hb]
  · rw [(sw_sharpen_spec H W temp_C C_Ref hR).2 row col hrow hcol]
    unfold sw_sharpen_px
    rw [if_pos hb]

/-- C3, an instance: a border sample `1000` of a 3 x 3 image is passed through, not clamped. -/
theorem C3_border_pass_through_witness :
    rd (kernel_sharpen 3 3 [[0, 1000, 0], [255, 128, 0], [0, 128, -7]] (List.replicate 9 0))
      (0 * 3 + 1) = 1000 ∧
    rd (sw_sharpen 3 3 [0, 1000, 0, 255, 128, 0, 0, 128, -7] (List.replicate 9 0))
      (0 * 3 + 1) = 1000 :=
  C3_border_pass_through 3 3 [[0, 1000, 0], [255, 128, 0], [0, 128, -7]]
    [0, 1000, 0, 255, 128, 0, 0, 128, -7] (List.replicate 9 0) (List.replicate 9 0)
    (by unfold shaped; decide) (by decide) (by decide) (by decide) 0 1 (by decide) (by decide)
    (by decide)

/-- C4. For input images `A`, `B` of `H * W` 32-bit samples and output buffers of `H * W`
samples, the array the kernel `IMAGE_DIFF_POSTERIZE` leaves in `out_r` is the array
`software_reference` leaves in `C_Ref`: the two are equal as buffers, hence at every index. -/
theorem C4_oracle_equivalence (H W : Nat) (A B out_r C_Ref : List Int)
    (_hA : A.length = H * W) (_hB : B.length = H * W)
    (hO : out_r.length = H * W) (hR : C_Ref.length = H * W) :
    IMAGE_DIFF_POSTERIZE H W A B out_r = software_reference H W A B C_Ref ∧
    ∀ idx, idx < H * W →
      rd (IMAGE_DIFF_POSTERIZE H W A B out_r) idx = rd (software_reference H W A B C_Ref) idx := by
  have hk := kernel_out_spec H W A B out_r hO
  have hs := sw_out_spec H W A B C_Ref hR
  have heq : IMAGE_DIFF_POSTERIZE H W A B out_r = software_reference H W A B C_Ref :=
    flat_ext hk.1 hs.1 (fun i j hi hj => by rw [hk.2 i j hi hj, hs.2 i j hi hj])
  exact ⟨heq, fun idx _ => by rw [heq]⟩

/-- C4, an instance: a 3 x 3 image pair that contains `INT_MIN`, `INT_MAX` and ordinary
8-bit samples. -/
theorem C4_oracle_equivalence_witness :
    IMAGE_DIFF_POSTERIZE 3 3 [-2147483648, 7, 2147483647, 200, 100, 0, 255, 31, 96]
        [0, 40, -1, 0, 50, 96, 0, 0, 0] (List.replicate 9 0)
      = software_reference 3 3 [-2147483648, 7, 2147483647, 200, 100, 0, 255, 31, 96]
        [0, 40, -1, 0, 50, 96, 0, 0, 0] (List.replicate 9 0) :=
  (C4_oracle_equivalence 3 3 [-2147483648, 7, 2147483647, 200, 100, 0, 255, 31, 96]
    [0, 40, -1, 0, 50, 96, 0, 0, 0] (List.replicate 9 0) (List.replicate 9 0)
    (by decide) (by decide) (by decide) (by decide)).1

/-- C5. For every pixel index `i` with `|A[i] - B[i]| = T1` the classification sample of both
implementations is `128` (MID, not LOW), and with `|A[i] - B[i]| = T2` it is `255`
(HIGH, not MID). -/
theorem C5_threshold_boundaries (H W : Nat) (A B : List Int)
    (_hA : A.length = H * W) (_hB : B.length = H * W) (i : Nat) (hi : i < H * W) :
    (|rd A i - rd B i| = T1 →
      rd (sw_posterize H W A B) i = 128 ∧ rd2 (kernel_img_C H W A B) (i / W) (i % W) = 128) ∧
    (|rd A i - rd B i| = T2 →
      rd (sw_posterize H W A B) i = 255 ∧ rd2 (kernel_img_C H W A B) (i / W) (i % W) = 255) := by
  obtain ⟨h1, h2, h3⟩ := div_mod_idx hi
  have hk := (kernel_img_C_spec H W A B).2 (i / W) (i % W) h1 h2
  rw [h3] at hk
  have hs := (sw_posterize_spec H W A B).2 i hi
  rw [hk, hs, ← diff_post_eq_sw]
  constructor
  · intro h
    have : diff_post (rd A i) (rd B i) = 128 :=
      diff_post_mid _ _ (by rw [h]) (by rw [h]; decide)
    exact ⟨this, this⟩
  · intro h
    have : diff_post (rd A i) (rd B i) = 255 :=
      diff_post_high _ _ (by rw [h]) (by rw [h]; decide)
    exact ⟨this, this⟩

/-- C5, an instance: in a 3 x 3 image pair the pixel with difference exactly `32` is
classified `128`. -/
theorem C5_threshold_boundaries_witness :
    rd (sw_posterize 3 3 [0, 0, 0, 0, 32, 0, 0, 0, 96] [0, 0, 0, 0, 0, 0, 0, 0, 0]) 4 = 128 ∧
    rd2 (kernel_img_C 3 3 [0, 0, 0, 0, 32, 0, 0, 0, 96] [0, 0, 0, 0, 0, 0, 0, 0, 0])
      (4 / 3) (4 % 3) = 128 :=
  (C5_threshold_boundaries 3 3 [0, 0, 0, 0, 32, 0, 0, 0, 96] [0, 0, 0, 0, 0, 0, 0, 0, 0]
    (by decide) (by decide) 4 (by decide)).1 (by decide)

/-- C6. For all images `A`, `B` of `H * W` samples the classification image computed from
`(A, B)` equals the one computed from `(B, A)`, in stage 1 of `software_reference` and in
the kernel. -/
theorem C6_difference_symmetry (H W : Nat) (A B : List Int)
    (_hA : A.length = H * W) (_hB : B.length = H * W) :
    sw_posterize H W A B = sw_posterize H W B A ∧
    kernel_img_C H W A B = kernel_img_C H W B A := by
  constructor
  · have h1 := sw_posterize_spec H W A B
    have h2 := sw_posterize_spec H W B A
    apply List.ext_getElem (by rw [h1.1, h2.1])
    intro n hn1 hn2
    have hn : n < H * W := by rw [← h1.1]; exact hn1
    have e1 := h1.2 n hn
    have e2 := h2.2 n hn
    unfold rd at e1 e2
    rw [List.getD_eq_getElem _ 0 hn1] at e1
    rw [List.getD_eq_getElem _ 0 hn2] at e2
    rw [e1, e2, ← diff_post_eq_sw, ← diff_post_eq_sw]
    exact diff_post_symm _ _
  · have h1 := kernel_img_C_spec H W A B
    have h2 := kernel_img_C_spec H W B A
    exact shaped_ext h1.1 h2.1 (fun i j hi hj => by
      rw [h1.2 i j hi hj, h2.2 i j hi hj]; exact diff_post_symm _ _)

/-- C6, an instance on a 3 x 3 image pair. -/
theorem C6_difference_symmetry_witness :
    sw_posterize 3 3 [0, 10, 40, 100, 200, 255, 96, 32, 31] [5, 0, 0, 250, 0, 0, 0, 64, 31]
      = sw_posterize 3 3 [5, 0, 0, 250, 0, 0, 0, 64, 31] [0, 10, 40, 100, 200, 255, 96, 32, 31] ∧
    kernel_img_C 3 3 [0, 10, 40, 100, 200, 255, 96, 32, 31] [5, 0, 0, 250, 0, 0, 0, 64, 31]
      = kernel_img_C 3 3 [5, 0, 0, 250, 0, 0, 0, 64, 31] [0, 10, 40, 100, 200, 255, 96, 32, 31] :=
  C6_difference_symmetry 3 3 [0, 10, 40, 100, 200, 255, 96, 32, 31]
    [5, 0, 0, 250, 0, 0, 0, 64, 31] (by decide) (by decide)

/-- C7. For all input images `A`, `B` of `H * W` samples, every sample of the output image of
the kernel and of `software_reference`, border and interior alike, lies in `[0, 255]`. -/
theorem C7_output_range (H W : Nat) (A B out_r C_Ref : List Int)
    (_hA : A.length = H * W) (_hB : B.length = H * W)
    (hO : out_r.length = H * W) (hR : C_Ref.length = H * W) (idx : Nat) (hidx : idx < H * W) :
    (0 ≤ rd (IMAGE_DIFF_POSTERIZE H W A B out_r) idx ∧
      rd (IMAGE_DIFF_POSTERIZE H W A B out_r) idx ≤ 255) ∧
    (0 ≤ rd (software_reference H W A B C_Ref) idx ∧
      rd (software_reference H W A B C_Ref) idx ≤ 255) := by
  obtain ⟨h1, h2, h3⟩ := div_mod_idx hidx
  have hk := (kernel_out_spec H W A B out_r hO).2 (idx / W) (idx % W) h1 h2
  have hs := (sw_out_spec H W A B C_Ref hR).2 (idx / W) (idx % W) h1 h2
  rw [h3] at hk hs
  rw [hk, hs]
  exact ⟨pipeline_px_range _ _ _ _ _ _, pipeline_px_range _ _ _ _ _ _⟩

/-- C7, an instance: the centre sample of the output for a 3 x 3 image pair. -/
theorem C7_output_range_witness :
    (0 ≤ rd (IMAGE_DIFF_POSTERIZE 3 3 [0, 10, 40, 100, 200, 255, 96, 32, 31]
        [5, 0, 0, 250, 0, 0, 0, 64, 31] (List.replicate 9 0)) 4 ∧
      rd (IMAGE_DIFF_POSTERIZE 3 3 [0, 10, 40, 100, 200, 255, 96, 32, 31]
        [5, 0, 0, 250, 0, 0, 0, 64, 31] (List.replicate 9 0)) 4 ≤ 255) ∧
    (0 ≤ rd (software_reference 3 3 [0, 10, 40, 100, 200, 255, 96, 32, 31]
        [5, 0, 0, 250, 0, 0, 0, 64, 31] (List.replicate 9 0)) 4 ∧
      rd (software_reference 3 3 [0, 10, 40, 100, 200, 255, 96, 32, 31]
        [5, 0, 0, 250, 0, 0, 0, 64, 31] (List.replicate 9 0)) 4 ≤ 255) :=
  C7_output_range 3 3 [0, 10, 40, 100, 200, 255, 96, 32, 31] [5, 0, 0, 250, 0, 0, 0, 64, 31]
    (List.replicate 9 0) (List.replicate 9 0) (by decide) (by decide) (by decide) (by decide)
    4 (by decide)

/-- C8. For every classification image and every interior pixel: if the centre is `255` and
its four axis-aligned neighbours are `0`, the stencil value is `1275` and the output of the
sharpen stage is `255`; if the centre is `0` and the four neighbours are `255`, the stencil
value is `-1020` and the output is `0`. Stated for the kernel (first two parts) and for
`software_reference` (last two parts). -/
theorem C8_clamp_saturation (H W : Nat) (img_C : List (List Int)) (temp_C out_r C_Ref : List Int)
    (_hC : shaped H W img_C) (_hT : temp_C.length = H * W)
    (hO : out_r.length = H * W) (hR : C_Ref.length = H * W)
    (row col : Nat) (hr0 : 0 < row) (hr1 : row < H - 1) (hc0 : 0 < col) (hc1 : col < W - 1) :
    (rd2 img_C row col = 255 → rd2 img_C (row - 1) col = 0 → rd2 img_C (row + 1) col = 0 →
      rd2 img_C row (col - 1) = 0 → rd2 img_C row (col + 1) = 0 →
      stencil (rd2 img_C row col) (rd2 img_C (row - 1) col) (rd2 img_C (row + 1) col)
        (rd2 img_C row (col - 1)) (rd2 img_C row (col + 1)) = 1275 ∧
      rd (kernel_sharpen H W img_C out_r) (row * W + col) = 255) ∧
    (rd2 img_C row col = 0 → rd2 img_C (row - 1) col = 255 → rd2 img_C (row + 1) col = 255 →
      rd2 img_C row (col - 1) = 255 → rd2 img_C row (col + 1) = 255 →
      stencil (rd2 img_C row col) (rd2 img_C (row - 1) col) (rd2 img_C (row + 1) col)
        (rd2 img_C row (col - 1)) (rd2 img_C row (col + 1)) = -1020 ∧
      rd (kernel_sharpen H W img_C out_r) (row * W + col) = 0) ∧
    (rd temp_C (row * W + col) = 255 → rd temp_C ((row - 1) * W + col) = 0 →
      rd temp_C ((row + 1) * W + col) = 0 → rd temp_C (row * W + (col - 1)) = 0 →
      rd temp_C (row * W + (col + 1)) = 0 →
      stencil (rd temp_C (row * W + col)) (rd temp_C ((row - 1) * W + col))
        (rd temp_C ((row + 1) * W + col)) (rd temp_C (row * W + (col - 1)))
        (rd temp_C (row * W + (col + 1))) = 1275 ∧
      rd (sw_sharpen H W temp_C C_Ref) (row * W + col) = 255) ∧
    (rd temp_C (row * W + col) = 0 → rd temp_C ((row - 1) * W + col) = 255 →
      rd temp_C ((row + 1) * W + col) = 255 → rd temp_C (row * W + (col - 1)) = 255 →
      rd temp_C (row * W + (col + 1)) = 255 →
      stencil (rd temp_C (row * W + col)) (rd temp_C ((row - 1) * W + col))
        (rd temp_C ((row + 1) * W + col)) (rd temp_C (row * W + (col - 1)))
        (rd temp_C (row * W + (col + 1))) = -1020 ∧
      rd (sw_sharpen H W temp_C C_Ref) (row * W + col) = 0) := by
  have hrow : row < H := by omega
  have hcol : col < W := by omega
  have hnb := interior_not_border hr0 hr1 hc0 hc1
  have hk := (kernel_sharpen_spec H W img_C out_r hO).2 row col hrow hcol
  have hs := (sw_sharpen_spec H W temp_C C_Ref hR).2 row col hrow hcol
  unfold sharpen_px at hk
  unfold sw_sharpen_px at hs
  rw [if_neg hnb] at hk hs
  rw [hk, hs]
  refine ⟨?_, ?_, ?_, ?_⟩ <;>
  · intro a b c d e
    rw [a, b, c, d, e]
    decide

/-- C8, an instance: scenario 2 of the specification, the 3 x 3 grid with a `255` centre
and `0` elsewhere. -/
theorem C8_clamp_saturation_witness :
    stencil 255 0 0 0 0 = 1275 ∧
    rd (kernel_sharpen 3 3 [[0, 0, 0], [0, 255, 0], [0, 0, 0]] (List.replicate 9 0))
      (1 * 3 + 1) = 255 :=
  (C8_clamp_saturation 3 3 [[0, 0, 0], [0, 255, 0], [0, 0, 0]] [0, 0, 0, 0, 255, 0, 0, 0, 0]
    (List.replicate 9 0) (List.replicate 9 0)
    (by unfold shaped; decide) (by decide) (by decide) (by decide)
    1 1 (by decide) (by decide) (by decide) (by decide)).1
    (by decide) (by decide) (by decide) (by decide) (by decide)

/-- C9, as amended. If every pixel of `A`, `B` has `|A[i] - B[i]|` in the same threshold band,
where the HIGH band is `T2 ≤ |A[i] - B[i]| ≤ INT_MAX`, then with `L` the level of that band
(`0`, `128` or `255`) every classification sample and every output sample of the kernel and
of `software_reference`, border and interior alike, equals `L`. -/
theorem C9_uniform_field (H W : Nat) (A B out_r C_Ref : List Int)
    (_hA : A.length = H * W) (_hB : B.length = H * W)
    (hO : out_r.length = H * W) (hR : C_Ref.length = H * W) (L : Int)
    (hband : (L = 0 ∧ ∀ i, i < H * W → |rd A i - rd B i| < T1) ∨
      (L = 128 ∧ ∀ i, i < H * W → T1 ≤ |rd A i - rd B i| ∧ |rd A i - rd B i| < T2) ∨
      (L = 255 ∧ ∀ i, i < H * W → T2 ≤ |rd A i - rd B i| ∧ |rd A i - rd B i| ≤ INT_MAX))
    (idx : Nat) (hidx : idx < H * W) :
    rd (sw_posterize H W A B) idx = L ∧
    rd2 (kernel_img_C H W A B) (idx / W) (idx % W) = L ∧
    rd (IMAGE_DIFF_POSTERIZE H W A B out_r) idx = L ∧
    rd (software_reference H W A B C_Ref) idx = L := by
  have hu : ∀ i, i < H * W → diff_post (rd A i) (rd B i) = L := by
    intro i hi
    rcases hband with ⟨hL, h⟩ | ⟨hL, h⟩ | ⟨hL, h⟩
    · rw [hL]; exact diff_post_low _ _ (h i hi)
    · rw [hL]; exact diff_post_mid _ _ (h i hi).1 (h i hi).2
    · rw [hL]; exact diff_post_high _ _ (h i hi).1 (h i hi).2
  have hL : 0 ≤ L ∧ L ≤ 255 := by
    rcases hband with ⟨hL, _⟩ | ⟨hL, _⟩ | ⟨hL, _⟩ <;> rw [hL] <;> decide
  obtain ⟨h1, h2, h3⟩ := div_mod_idx hidx
  have hc := (kernel_img_C_spec H W A B).2 (idx / W) (idx % W) h1 h2
  have hk := (kernel_out_spec H W A B out_r hO).2 (idx / W) (idx % W) h1 h2
  have hs := (sw_out_spec H W A B C_Ref hR).2 (idx / W) (idx % W) h1 h2
  rw [h3] at hc hk hs
  rw [hc, hk, hs, (sw_posterize_spec H W A B).2 idx hidx, ← diff_post_eq_sw]
  exact ⟨hu idx hidx, hu idx hidx, pipeline_px_uniform H W A B L hL.1 hL.2 hu _ _ h1 h2,
    pipeline_px_uniform H W A B L hL.1 hL.2 hu _ _ h1 h2⟩

/-- C9, an instance: scenario 3 of the specification, `A` all `100` and `B` all `50` on a
3 x 3 grid, gives `128` everywhere. -/
theorem C9_uniform_field_witness :
    rd (sw_posterize 3 3 (List.replicate 9 100) (List.replicate 9 50)) 4 = 128 ∧
    rd2 (kernel_img_C 3 3 (List.replicate 9 100) (List.replicate 9 50)) (4 / 3) (4 % 3) = 128 ∧
    rd (IMAGE_DIFF_POSTERIZE 3 3 (List.replicate 9 100) (List.replicate 9 50)
      (List.replicate 9 0)) 4 = 128 ∧
    rd (software_reference 3 3 (List.replicate 9 100) (List.replicate 9 50)
      (List.replicate 9 0)) 4 = 128 :=
  C9_uniform_field 3 3 (List.replicate 9 100) (List.replicate 9 50) (List.replicate 9 0)
    (List.replicate 9 0) (by decide) (by decide) (by decide) (by decide) 128
    (Or.inr (Or.inl ⟨rfl, by decide⟩)) 4 (by decide)

/-- C9 as stated fails: in the 128 x 128 images `A` all `2147483647`, `B` all `-2147483648`
every pixel has `|A[i] - B[i]| = 4294967295`, in the HIGH band, but the 32-bit difference
wraps to `-1`, so the classification and the output at pixel 0 are `0`, not `255`. -/
theorem C9_overflow_counterexample :
    (∀ i, i < HEIGHT * WIDTH →
      T2 ≤ |rd (List.replicate DATA_SIZE 2147483647) i
        - rd (List.replicate DATA_SIZE (-2147483648)) i|) ∧
    rd (sw_posterize HEIGHT WIDTH (List.replicate DATA_SIZE 2147483647)
      (List.replicate DATA_SIZE (-2147483648))) 0 = 0 ∧
    rd2 (kernel_img_C HEIGHT WIDTH (List.replicate DATA_SIZE 2147483647)
      (List.replicate DATA_SIZE (-2147483648))) 0 0 = 0 ∧
    rd (IMAGE_DIFF_POSTERIZE HEIGHT WIDTH (List.replicate DATA_SIZE 2147483647)
      (List.replicate DATA_SIZE (-2147483648)) (List.replicate DATA_SIZE 0)) 0 = 0 ∧
    rd (software_reference HEIGHT WIDTH (List.replicate DATA_SIZE 2147483647)
      (List.replicate DATA_SIZE (-2147483648)) (List.replicate DATA_SIZE 0)) 0 = 0 := by
  have h0 : (0 : Nat) < HEIGHT * WIDTH := by decide
  have hr1 : ∀ i, i < HEIGHT * WIDTH →
      rd (List.replicate DATA_SIZE (2147483647 : Int)) i = 2147483647 :=
    fun i hi => rd_replicate _ hi
  have hr2 : ∀ i, i < HEIGHT * WIDTH →
      rd (List.replicate DATA_SIZE (-2147483648 : Int)) i = -2147483648 :=
    fun i hi => rd_replicate _ hi
  have hk := (kernel_img_C_spec HEIGHT WIDTH (List.replicate DATA_SIZE 2147483647)
      (List.replicate DATA_SIZE (-2147483648))).2 0 0 (by decide) (by decide)
  have ho := (kernel_out_spec HEIGHT WIDTH (List.replicate DATA_SIZE 2147483647)
      (List.replicate DATA_SIZE (-2147483648)) (List.replicate DATA_SIZE 0)
      (by simp [DATA_SIZE])).2 0 0 (by decide) (by decide)
  have hs := (sw_out_spec HEIGHT WIDTH (List.replicate DATA_SIZE 2147483647)
      (List.replicate DATA_SIZE (-2147483648)) (List.replicate DATA_SIZE 0)
      (by simp [DATA_SIZE])).2 0 0 (by decide) (by decide)
  simp only [Nat.zero_mul, Nat.add_zero] at hk ho hs
  refine ⟨fun i hi => ?_, ?_, ?_, ?_, ?_⟩
  · rw [hr1 i hi, hr2 i hi]; decide
  · rw [(sw_posterize_spec HEIGHT WIDTH _ _).2 0 h0, hr1 0 h0, hr2 0 h0]; decide
  · rw [hk, hr1 0 h0, hr2 0 h0]; decide
  · rw [ho]; unfold pipeline_px; rw [if_pos (Or.inl rfl)]
    simp only [Nat.zero_mul, Nat.add_zero]
    rw [hr1 0 h0, hr2 0 h0]; decide
  · rw [hs]; unfold pipeline_px; rw [if_pos (Or.inl rfl)]
    simp only [Nat.zero_mul, Nat.add_zero]
    rw [hr1 0 h0, hr2 0 h0]; decide

/-- C10. The comparison loop of `main` on result arrays of `n` samples (`sw_results` the
expected, `hw_results` the actual values) ends with `match = true` exactly when the arrays
agree at every index, and then prints nothing; otherwise it ends with `match = false`
and has printed exactly one report: the smallest index `i` with
`sw_results[i] ≠ hw_results[i]`, with `sw_results[i]` and `hw_results[i]`. -/
theorem C10_mismatch_reporting (n : Nat) (hw_results sw_results : List Int)
    (_hH : hw_results.length = n) (_hS : sw_results.length = n) :
    ((compare_results n hw_results sw_results).is_match = true ↔
      ∀ i, i < n → rd sw_results i = rd hw_results i) ∧
    ((∀ i, i < n → rd sw_results i = rd hw_results i) →
      compare_results n hw_results sw_results = { is_match := true, printed := [] }) ∧
    (∀ i, i < n → rd sw_results i ≠ rd hw_results i →
      (∀ k, k < i → rd sw_results k = rd hw_results k) →
      compare_results n hw_results sw_results
        = { is_match := false, printed := [(i, rd sw_results i, rd hw_results i)] }) := by
  have hspec := compare_loop_spec hw_results sw_results n 0 { is_match := true, printed := [] }
  have hres : compare_results n hw_results sw_results
      = compare_loop hw_results sw_results n 0 { is_match := true, printed := [] } := rfl
  rw [hres]
  rcases hspec with ⟨hall, heq⟩ | ⟨m, _, hm2, hne, hbefore, heq⟩
  · rw [heq]
    refine ⟨⟨fun _ i hi => (hall i (Nat.zero_le i) (by omega)).symm, fun _ => rfl⟩,
      fun _ => rfl, fun i hi hne _ => ?_⟩
    exact absurd (hall i (Nat.zero_le i) (by omega)).symm hne
  · rw [heq]
    refine ⟨⟨fun h => by simp at h, fun h => ?_⟩, fun h => ?_, fun i hi hne2 hbefore2 => ?_⟩
    · exact absurd (h m (by omega)).symm hne
    · exact absurd (h m (by omega)).symm hne
    · have him : i = m := by
        rcases Nat.lt_trichotomy i m with hlt | heq2 | hgt
        · exact absurd (hbefore i (Nat.zero_le i) hlt).symm hne2
        · exact heq2
        · exact absurd (hbefore2 m hgt).symm hne
      rw [him]
      simp

/-- C10, an instance: arrays that differ at the indices 2 and 3; only index 2 is reported. -/
theorem C10_mismatch_reporting_witness :
    compare_results 4 [1, 2, 3, 4] [1, 2, 5, 6] = { is_match := false, printed := [(2, 5, 3)] } :=
  (C10_mismatch_reporting 4 [1, 2, 3, 4] [1, 2, 5, 6] (by decide) (by decide)).2.2 2
    (by decide) (by decide) (by decide)

/-! ## Helper lemmas for the clamp, locality and overflow claims -/

theorem clip_stencil_low (u d l r : Int) (hu : 0 ≤ u ∧ u ≤ 255) (hd : 0 ≤ d ∧ d ≤ 255)
    (hl : 0 ≤ l ∧ l ≤ 255) (hr : 0 ≤ r ∧ r ≤ 255) : clip (stencil 0 u d l r) 0 255 = 0 := by
  rw [stencil_exact 0 u d l r (by unfold INT_MIN; omega) (by unfold INT_MAX; omega)]
  unfold clip
  split_ifs <;> omega

theorem clip_stencil_high (u d l r : Int) (hu : 0 ≤ u ∧ u ≤ 255) (hd : 0 ≤ d ∧ d ≤ 255)
    (hl : 0 ≤ l ∧ l ≤ 255) (hr : 0 ≤ r ∧ r ≤ 255) : clip (stencil 255 u d l r) 0 255 = 255 := by
  rw [stencil_exact 255 u d l r (by unfold INT_MIN; omega) (by unfold INT_MAX; omega)]
  unfold clip
  split_ifs <;> omega

theorem levels_range {c : Int} (h : c = 0 ∨ c = 128 ∨ c = 255) : 0 ≤ c ∧ c ≤ 255 := by
  rcases h with h | h | h <;> rw [h] <;> decide

/-- C16. For all integers `x`, `lo`, `hi`, `clip x lo hi` is `lo` if `x < lo`, `hi` if
`x > hi` and `x ≥ lo`, else `x`; whenever `lo ≤ hi` the result lies in `[lo, hi]` and equals
`x` exactly when `lo ≤ x ≤ hi`; and `clip x 0 255` is `clip_sw x`. -/
theorem C16_clip_helper (x lo hi : Int) :
    (x < lo → clip x lo hi = lo) ∧
    (lo ≤ x → hi < x → clip x lo hi = hi) ∧
    (lo ≤ x → x ≤ hi → clip x lo hi = x) ∧
    (lo ≤ hi → lo ≤ clip x lo hi ∧ clip x lo hi ≤ hi ∧
      (clip x lo hi = x ↔ lo ≤ x ∧ x ≤ hi)) ∧
    clip x 0 255 = clip_sw x := by
  refine ⟨?_, ?_, ?_, ?_, rfl⟩
  · intro h; unfold clip; rw [if_pos h]
  · intro h1 h2; unfold clip; split_ifs <;> omega
  · intro h1 h2; unfold clip; split_ifs <;> omega
  · intro h
    unfold clip
    split_ifs <;> omega

/-- C16, an instance: `clip 300 0 255 = 255`, and `clip` stays inside `[0, 255]` there. -/
theorem C16_clip_helper_witness :
    clip 300 0 255 = 255 ∧ (0 ≤ clip 300 0 255 ∧ clip 300 0 255 ≤ 255 ∧
      (clip 300 0 255 = 300 ↔ (0 : Int) ≤ 300 ∧ (300 : Int) ≤ 255)) :=
  ⟨(C16_clip_helper 300 0 255).2.1 (by decide) (by decide),
   (C16_clip_helper 300 0 255).2.2.2.1 (by decide)⟩

/-- C12. For any two classification images of `H * W` samples and any pixel `(row, col)`: if
the images agree at `(row, col)` and at each axis-aligned neighbour that lies inside the
image, the sharpen outputs agree at `(row, col)`, in the kernel and in
`software_reference`. -/
theorem C12_stencil_locality (H W : Nat) (img_C img_D : List (List Int))
    (temp_C temp_D out_r out_s C_Ref C_Res : List Int)
    (_hC : shaped H W img_C) (_hD : shaped H W img_D)
    (_hT : temp_C.length = H * W) (_hU : temp_D.length = H * W)
    (hO : out_r.length = H * W) (hP : out_s.length = H * W)
    (hR : C_Ref.length = H * W) (hS : C_Res.length = H * W)
    (row col : Nat) (hrow : row < H) (hcol : col < W) :
    (rd2 img_C row col = rd2 img_D row col →
      (0 < row → rd2 img_C (row - 1) col = rd2 img_D (row - 1) col) →
      (row + 1 < H → rd2 img_C (row + 1) col = rd2 img_D (row + 1) col) →
      (0 < col → rd2 img_C row (col - 1) = rd2 img_D row (col - 1)) →
      (col + 1 < W → rd2 img_C row (col + 1) = rd2 img_D row (col + 1)) →
      rd (kernel_sharpen H W img_C out_r) (row * W + col)
        = rd (kernel_sharpen H W img_D out_s) (row * W + col)) ∧
    (rd temp_C (row * W + col) = rd temp_D (row * W + col) →
      (0 < row → rd temp_C ((row - 1) * W + col) = rd temp_D ((row - 1) * W + col)) →
      (row + 1 < H → rd temp_C ((row + 1) * W + col) = rd temp_D ((row + 1) * W + col)) →
      (0 < col → rd temp_C (row * W + (col - 1)) = rd temp_D (row * W + (col - 1))) →
      (col + 1 < W → rd temp_C (row * W + (col + 1)) = rd temp_D (row * W + (col + 1))) →
      rd (sw_sharpen H W temp_C C_Ref) (row * W + col)
        = rd (sw_sharpen H W temp_D C_Res) (row * W + col)) := by
  constructor
  · intro hc hu hd hl hr
    rw [(kernel_sharpen_spec H W img_C out_r hO).2 row col hrow hcol,
      (kernel_sharpen_spec H W img_D out_s hP).2 row col hrow hcol]
    unfold sharpen_px
    by_cases hb : row = 0 ∨ row = H - 1 ∨ col = 0 ∨ col = W - 1
    · rw [if_pos hb, if_pos hb, hc]
    · rw [if_neg hb, if_neg hb, hc, hu (by omega), hd (by omega), hl (by omega),
        hr (by omega)]
  · intro hc hu hd hl hr
    rw [(sw_sharpen_spec H W temp_C C_Ref hR).2 row col hrow hcol,
      (sw_sharpen_spec H W temp_D C_Res hS).2 row col hrow hcol]
    unfold sw_sharpen_px
    by_cases hb : row = 0 ∨ row = H - 1 ∨ col = 0 ∨ col = W - 1
    · rw [if_pos hb, if_pos hb, hc]
    · rw [if_neg hb, if_neg hb, hc, hu (by omega), hd (by omega), hl (by omega),
        hr (by omega)]

/-- C12, an instance: two 4 x 4 images that agree on the neighbourhood of pixel `(1, 1)` and
differ elsewhere give the same output sample at `(1, 1)`. -/
theorem C12_stencil_locality_witness :
    rd (kernel_sharpen 4 4 [[0, 128, 0, 0], [255, 128, 0, 0], [0, 128, 0, 0], [0, 0, 0, 0]]
        (List.replicate 16 0)) (1 * 4 + 1)
      = rd (kernel_sharpen 4 4
        [[255, 128, 255, 7], [255, 128, 0, 128], [128, 128, 255, 0], [9, 255, 0, 128]]
        (List.replicate 16 1)) (1 * 4 + 1) :=
  (C12_stencil_locality 4 4 [[0, 128, 0, 0], [255, 128, 0, 0], [0, 128, 0, 0], [0, 0, 0, 0]]
    [[255, 128, 255, 7], [255, 128, 0, 128], [128, 128, 255, 0], [9, 255, 0, 128]]
    (List.replicate 16 0) (List.replicate 16 0) (List.replicate 16 0) (List.replicate 16 1)
    (List.replicate 16 0) (List.replicate 16 0)
    (by unfold shaped; decide) (by unfold shaped; decide) (by decide) (by decide) (by decide)
    (by decide) (by decide) (by decide) 1 1 (by decide) (by decide)).1
    (by decide) (fun _ => by decide) (fun _ => by decide) (fun _ => by decide)
    (fun _ => by decide)

theorem pipeline_px_low (H W : Nat) (A B : List Int) (i j : Nat)
    (h : diff_post (rd A (i * W + j)) (rd B (i * W + j)) = 0) : pipeline_px H W A B i j = 0 := by
  unfold pipeline_px
  split
  · exact h
  · rw [h]
    exact clip_stencil_low _ _ _ _ (levels_range (diff_post_levels _ _))
      (levels_range (diff_post_levels _ _)) (levels_range (diff_post_levels _ _))
      (levels_range (diff_post_levels _ _))

theorem pipeline_px_high (H W : Nat) (A B : List Int) (i j : Nat)
    (h : diff_post (rd A (i * W + j)) (rd B (i * W + j)) = 255) :
    pipeline_px H W A B i j = 255 := by
  unfold pipeline_px
  split
  · exact h
  · rw [h]
    exact clip_stencil_high _ _ _ _ (levels_range (diff_post_levels _ _))
      (levels_range (diff_post_levels _ _)) (levels_range (diff_post_levels _ _))
      (levels_range (diff_post_levels _ _))

/-- C13, as amended. On a classification image whose samples are all in `{0, 128, 255}`, at
every pixel (border or interior) a sample `0` gives the sharpen output `0` and a sample `255`
gives `255`, in the kernel and in `software_reference`; and in the full pipeline a pixel with
`|A[i] - B[i]| < T1` outputs `0` and a pixel with `T2 ≤ |A[i] - B[i]| ≤ INT_MAX` outputs
`255`, whatever its neighbours are. -/
theorem C13_only_mid_changes (H W : Nat) (img_C : List (List Int))
    (temp_C A B out_r C_Ref : List Int)
    (_hC : shaped H W img_C) (_hT : temp_C.length = H * W)
    (_hA : A.length = H * W) (_hB : B.length = H * W)
    (hO : out_r.length = H * W) (hR : C_Ref.length = H * W)
    (row col : Nat) (hrow : row < H) (hcol : col < W) :
    ((∀ i j, i < H → j < W → rd2 img_C i j = 0 ∨ rd2 img_C i j = 128 ∨ rd2 img_C i j = 255) →
      (rd2 img_C row col = 0 → rd (kernel_sharpen H W img_C out_r) (row * W + col) = 0) ∧
      (rd2 img_C row col = 255 → rd (kernel_sharpen H W img_C out_r) (row * W + col) = 255)) ∧
    ((∀ k, k < H * W → rd temp_C k = 0 ∨ rd temp_C k = 128 ∨ rd temp_C k = 255) →
      (rd temp_C (row * W + col) = 0 → rd (sw_sharpen H W temp_C C_Ref) (row * W + col) = 0) ∧
      (rd temp_C (row * W + col) = 255 →
        rd (sw_sharpen H W temp_C C_Ref) (row * W + col) = 255)) ∧
    (|rd A (row * W + col) - rd B (row * W + col)| < T1 →
      rd (IMAGE_DIFF_POSTERIZE H W A B out_r) (row * W + col) = 0 ∧
      rd (software_reference H W A B C_Ref) (row * W + col) = 0) ∧
    (T2 ≤ |rd A (row * W + col) - rd B (row * W + col)| →
      |rd A (row * W + col) - rd B (row * W + col)| ≤ INT_MAX →
      rd (IMAGE_DIFF_POSTERIZE H W A B out_r) (row * W + col) = 255 ∧
      rd (software_reference H W A B C_Ref) (row * W + col) = 255) := by
  refine ⟨fun hal => ?_, fun hal => ?_, fun h => ?_, fun h1 h2 => ?_⟩
  · rw [(kernel_sharpen_spec H W img_C out_r hO).2 row col hrow hcol]
    unfold sharpen_px
    by_cases hb : row = 0 ∨ row = H - 1 ∨ col = 0 ∨ col = W - 1
    · rw [if_pos hb]; exact ⟨id, id⟩
    · rw [if_neg hb]
      have hu := levels_range (hal (row - 1) col (by omega) hcol)
      have hd := levels_range (hal (row + 1) col (by omega) hcol)
      have hl := levels_range (hal row (col - 1) hrow (by omega))
      have hr := levels_range (hal row (col + 1) hrow (by omega))
      exact ⟨fun h => by rw [h]; exact clip_stencil_low _ _ _ _ hu hd hl hr,
        fun h => by rw [h]; exact clip_stencil_high _ _ _ _ hu hd hl hr⟩
  · rw [(sw_sharpen_spec H W temp_C C_Ref hR).2 row col hrow hcol]
    unfold sw_sharpen_px
    by_cases hb : row = 0 ∨ row = H - 1 ∨ col = 0 ∨ col = W - 1
    · rw [if_pos hb]; exact ⟨id, id⟩
    · rw [if_neg hb]
      have hu := levels_range (hal _ (@idx_lt H W (row - 1) col (by omega) hcol))
      have hd := levels_range (hal _ (@idx_lt H W (row + 1) col (by omega) hcol))
      have hl := levels_range (hal _ (@idx_lt H W row (col - 1) hrow (by omega)))
      have hr := levels_range (hal _ (@idx_lt H W row (col + 1) hrow (by omega)))
      exact ⟨fun h => by rw [h]; exact clip_stencil_low _ _ _ _ hu hd hl hr,
        fun h => by rw [h]; exact clip_stencil_high _ _ _ _ hu hd hl hr⟩
  · rw [(kernel_out_spec H W A B out_r hO).2 row col hrow hcol,
      (sw_out_spec H W A B C_Ref hR).2 row col hrow hcol]
    exact ⟨pipeline_px_low H W A B row col (diff_post_low _ _ h),
      pipeline_px_low H W A B row col (diff_post_low _ _ h)⟩
  · rw [(kernel_out_spec H W A B out_r hO).2 row col hrow hcol,
      (sw_out_spec H W A B C_Ref hR).2 row col hrow hcol]
    exact ⟨pipeline_px_high H W A B row col (diff_post_high _ _ h1 h2),
      pipeline_px_high H W A B row col (diff_post_high _ _ h1 h2)⟩

/-- C13, an instance: in a 3 x 3 image pair whose centre differs by 200 and whose other
pixels differ by 50, the centre of the output is `255`. -/
theorem C13_only_mid_changes_witness :
    rd (IMAGE_DIFF_POSTERIZE 3 3 [50, 50, 50, 50, 200, 50, 50, 50, 50]
        [0, 0, 0, 0, 0, 0, 0, 0, 0] (List.replicate 9 0)) (1 * 3 + 1) = 255 ∧
    rd (software_reference 3 3 [50, 50, 50, 50, 200, 50, 50, 50, 50]
        [0, 0, 0, 0, 0, 0, 0, 0, 0] (List.replicate 9 0)) (1 * 3 + 1) = 255 :=
  (C13_only_mid_changes 3 3 [[128, 128, 128], [128, 255, 128], [128, 128, 128]]
    [128, 128, 128, 128, 255, 128, 128, 128, 128] [50, 50, 50, 50, 200, 50, 50, 50, 50]
    [0, 0, 0, 0, 0, 0, 0, 0, 0] (List.replicate 9 0) (List.replicate 9 0)
    (by unfold shaped; decide) (by decide) (by decide) (by decide) (by decide) (by decide)
    1 1 (by decide) (by decide)).2.2.2 (by decide) (by decide)

/-- C13 as stated fails: in the 128 x 128 images `A` all `2147483647`, `B` all `-1` the
interior pixel `(1, 1)` has `|A[i] - B[i]| = 2147483648 ≥ T2`, so the claim asks for the
output `255`, but the 32-bit difference wraps to `INT_MIN`, the pixel is classified `0`,
and both implementations output `0`. -/
theorem C13_overflow_counterexample :
    T2 ≤ |rd (List.replicate DATA_SIZE 2147483647) (1 * WIDTH + 1)
      - rd (List.replicate DATA_SIZE (-1)) (1 * WIDTH + 1)| ∧
    rd (IMAGE_DIFF_POSTERIZE HEIGHT WIDTH (List.replicate DATA_SIZE 2147483647)
      (List.replicate DATA_SIZE (-1)) (List.replicate DATA_SIZE 0)) (1 * WIDTH + 1) = 0 ∧
    rd (software_reference HEIGHT WIDTH (List.replicate DATA_SIZE 2147483647)
      (List.replicate DATA_SIZE (-1)) (List.replicate DATA_SIZE 0)) (1 * WIDTH + 1) = 0 := by
  have hk := (kernel_out_spec HEIGHT WIDTH (List.replicate DATA_SIZE 2147483647)
      (List.replicate DATA_SIZE (-1)) (List.replicate DATA_SIZE 0)
      (by simp [DATA_SIZE])).2 1 1 (by decide) (by decide)
  have hs := (sw_out_spec HEIGHT WIDTH (List.replicate DATA_SIZE 2147483647)
      (List.replicate DATA_SIZE (-1)) (List.replicate DATA_SIZE 0)
      (by simp [DATA_SIZE])).2 1 1 (by decide) (by decide)
  refine ⟨by decide, ?_, ?_⟩
  · rw [hk]; decide
  · rw [hs]; decide

theorem diff_post_eq_exact (a b : Int) (h : |a - b| ≤ INT_MAX) :
    diff_post a b = diff_post_exact a b := by
  by_cases h1 : |a - b| < T1
  · rw [diff_post_low a b h1]
    simp [diff_post_exact, h1]
  · by_cases h2 : |a - b| < T2
    · rw [diff_post_mid a b (not_lt.mp h1) h2]
      simp [diff_post_exact, h1, h2]
    · rw [diff_post_high a b (not_lt.mp h2) h]
      simp [diff_post_exact, h1, h2]

theorem abs_sub_byte {a b : Int} (ha : 0 ≤ a ∧ a ≤ 255) (hb : 0 ≤ b ∧ b ≤ 255) :
    |a - b| ≤ INT_MAX := by
  unfold INT_MAX
  rw [abs_le]
  omega

theorem pipeline_px_eq_exact (H W : Nat) (A B : List Int)
    (hA8 : ∀ k, k < H * W → 0 ≤ rd A k ∧ rd A k ≤ 255)
    (hB8 : ∀ k, k < H * W → 0 ≤ rd B k ∧ rd B k ≤ 255)
    (i j : Nat) (hi : i < H) (hj : j < W) :
    pipeline_px H W A B i j = pipeline_px_exact H W A B i j := by
  have hc : ∀ k, k < H * W → diff_post (rd A k) (rd B k) = diff_post_exact (rd A k) (rd B k) :=
    fun k hk => diff_post_eq_exact _ _ (abs_sub_byte (hA8 k hk) (hB8 k hk))
  unfold pipeline_px pipeline_px_exact
  by_cases hb : i = 0 ∨ i = H - 1 ∨ j = 0 ∨ j = W - 1
  · rw [if_pos hb, if_pos hb, hc _ (idx_lt hi hj)]
  · rw [if_neg hb, if_neg hb]
    have e0 := hc _ (idx_lt hi hj)
    have e1 := hc _ (@idx_lt H W (i - 1) j (by omega) hj)
    have e2 := hc _ (@idx_lt H W (i + 1) j (by omega) hj)
    have e3 := hc _ (@idx_lt H W i (j - 1) hi (by omega))
    have e4 := hc _ (@idx_lt H W i (j + 1) hi (by omega))
    have r0 := levels_range (diff_post_levels (rd A (i * W + j)) (rd B (i * W + j)))
    have r1 := levels_range
      (diff_post_levels (rd A ((i - 1) * W + j)) (rd B ((i - 1) * W + j)))
    have r2 := levels_range
      (diff_post_levels (rd A ((i + 1) * W + j)) (rd B ((i + 1) * W + j)))
    have r3 := levels_range
      (diff_post_levels (rd A (i * W + (j - 1))) (rd B (i * W + (j - 1))))
    have r4 := levels_range
      (diff_post_levels (rd A (i * W + (j + 1))) (rd B (i * W + (j + 1))))
    rw [stencil_exact _ _ _ _ _ (by unfold INT_MIN; omega) (by unfold INT_MAX; omega),
      clip_eq_clamp, e0, e1, e2, e3, e4]

theorem stencil_steps (c u d l r : Int) (hc : 0 ≤ c ∧ c ≤ 255) (hu : 0 ≤ u ∧ u ≤ 255)
    (hd : 0 ≤ d ∧ d ≤ 255) (hl : 0 ≤ l ∧ l ≤ 255) (hr : 0 ≤ r ∧ r ≤ 255) :
    (-1020 ≤ 5 * c - u - d - l - r ∧ 5 * c - u - d - l - r ≤ 1275) ∧
    stencil_ops_exact c u d l r ∧
    stencil c u d l r = 5 * c - u - d - l - r := by
  refine ⟨by omega, ⟨?_, ?_, ?_, ?_, ?_⟩, ?_⟩
  · unfold mul32 wrap32; omega
  · unfold sub32 wrap32; omega
  · unfold sub32 wrap32; omega
  · unfold sub32 wrap32; omega
  · unfold sub32 wrap32; omega
  · exact stencil_exact _ _ _ _ _ (by unfold INT_MIN; omega) (by unfold INT_MAX; omega)

/-- C14. For source images `A`, `B` with every sample in `[0, 255]` and every pixel `(i, j)`:
the difference `A[i] - B[i]` lies in `[-255, 255]` and the 32-bit subtraction and negation
give the exact values; at an interior pixel the stencil value on the classification image
lies in `[-1020, 1275]` and the 32-bit product, the four 32-bit subtractions
(`stencil_ops_exact`) and the whole stencil give the exact values; and the output sample of the kernel and of
`software_reference` is the one computed over the unbounded integers. -/
theorem C14_no_overflow (H W : Nat) (A B out_r C_Ref : List Int)
    (_hA : A.length = H * W) (_hB : B.length = H * W)
    (hO : out_r.length = H * W) (hR : C_Ref.length = H * W)
    (hA8 : ∀ k, k < H * W → 0 ≤ rd A k ∧ rd A k ≤ 255)
    (hB8 : ∀ k, k < H * W → 0 ≤ rd B k ∧ rd B k ≤ 255)
    (i j : Nat) (hi : i < H) (hj : j < W) :
    (-255 ≤ rd A (i * W + j) - rd B (i * W + j) ∧ rd A (i * W + j) - rd B (i * W + j) ≤ 255) ∧
    sub32 (rd A (i * W + j)) (rd B (i * W + j)) = rd A (i * W + j) - rd B (i * W + j) ∧
    neg32 (rd A (i * W + j) - rd B (i * W + j)) = -(rd A (i * W + j) - rd B (i * W + j)) ∧
    (0 < i → i < H - 1 → 0 < j → j < W - 1 →
      (-1020 ≤ 5 * rd (sw_posterize H W A B) (i * W + j)
          - rd (sw_posterize H W A B) ((i - 1) * W + j)
          - rd (sw_posterize H W A B) ((i + 1) * W + j)
          - rd (sw_posterize H W A B) (i * W + (j - 1))
          - rd (sw_posterize H W A B) (i * W + (j + 1)) ∧
        5 * rd (sw_posterize H W A B) (i * W + j)
          - rd (sw_posterize H W A B) ((i - 1) * W + j)
          - rd (sw_posterize H W A B) ((i + 1) * W + j)
          - rd (sw_posterize H W A B) (i * W + (j - 1))
          - rd (sw_posterize H W A B) (i * W + (j + 1)) ≤ 1275) ∧
      stencil_ops_exact (rd (sw_posterize H W A B) (i * W + j))
          (rd (sw_posterize H W A B) ((i - 1) * W + j))
          (rd (sw_posterize H W A B) ((i + 1) * W + j))
          (rd (sw_posterize H W A B) (i * W + (j - 1)))
          (rd (sw_posterize H W A B) (i * W + (j + 1))) ∧
      stencil (rd (sw_posterize H W A B) (i * W + j))
          (rd (sw_posterize H W A B) ((i - 1) * W + j))
          (rd (sw_posterize H W A B) ((i + 1) * W + j))
          (rd (sw_posterize H W A B) (i * W + (j - 1)))
          (rd (sw_posterize H W A B) (i * W + (j + 1)))
        = 5 * rd (sw_posterize H W A B) (i * W + j)
          - rd (sw_posterize H W A B) ((i - 1) * W + j)
          - rd (sw_posterize H W A B) ((i + 1) * W + j)
          - rd (sw_posterize H W A B) (i * W + (j - 1))
          - rd (sw_posterize H W A B) (i * W + (j + 1))) ∧
    rd (IMAGE_DIFF_POSTERIZE H W A B out_r) (i * W + j) = pipeline_px_exact H W A B i j ∧
    rd (software_reference H W A B C_Ref) (i * W + j) = pipeline_px_exact H W A B i j := by
  have ha := hA8 _ (idx_lt hi hj)
  have hb := hB8 _ (idx_lt hi hj)
  have hlev : ∀ k, k < H * W → 0 ≤ rd (sw_posterize H W A B) k ∧
      rd (sw_posterize H W A B) k ≤ 255 := by
    intro k hk
    rw [(sw_posterize_spec H W A B).2 k hk, ← diff_post_eq_sw]
    exact levels_range (diff_post_levels _ _)
  refine ⟨by omega, ?_, ?_, ?_, ?_, ?_⟩
  · unfold sub32 wrap32; omega
  · unfold neg32 wrap32; omega
  · intro h1 h2 h3 h4
    have s := stencil_steps _ _ _ _ _ (hlev _ (idx_lt hi hj))
      (hlev _ (@idx_lt H W (i - 1) j (by omega) hj))
      (hlev _ (@idx_lt H W (i + 1) j (by omega) hj))
      (hlev _ (@idx_lt H W i (j - 1) hi (by omega)))
      (hlev _ (@idx_lt H W i (j + 1) hi (by omega)))
    exact s
  · rw [(kernel_out_spec H W A B out_r hO).2 i j hi hj]
    exact pipeline_px_eq_exact H W A B hA8 hB8 i j hi hj
  · rw [(sw_out_spec H W A B C_Ref hR).2 i j hi hj]
    exact pipeline_px_eq_exact H W A B hA8 hB8 i j hi hj

/-- C14, an instance: the output at the centre of a 3 x 3 pair of 8-bit images is the value
computed over the unbounded integers. -/
theorem C14_no_overflow_witness :
    rd (IMAGE_DIFF_POSTERIZE 3 3 [0, 10, 40, 100, 200, 255, 96, 32, 31]
        [5, 0, 0, 250, 0, 0, 0, 64, 31] (List.replicate 9 0)) (1 * 3 + 1)
      = pipeline_px_exact 3 3 [0, 10, 40, 100, 200, 255, 96, 32, 31]
        [5, 0, 0, 250, 0, 0, 0, 64, 31] 1 1 :=
  (C14_no_overflow 3 3 [0, 10, 40, 100, 200, 255, 96, 32, 31] [5, 0, 0, 250, 0, 0, 0, 64, 31]
    (List.replicate 9 0) (List.replicate 9 0) (by decide) (by decide) (by decide) (by decide)
    (by decide) (by decide) 1 1 (by decide) (by decide)).2.2.2.2.1

theorem rd_take {l : List Int} {n k : Nat} (h : k < n) : rd (l.take n) k = rd l k := by
  unfold rd
  rw [List.getD_eq_getElem?_getD, List.getD_eq_getElem?_getD, List.getElem?_take_of_lt h]

theorem pipeline_px_congr (H W : Nat) (A B A2 B2 : List Int)
    (hA : ∀ k, k < H * W → rd A k = rd A2 k) (hB : ∀ k, k < H * W → rd B k = rd B2 k)
    (i j : Nat) (hi : i < H) (hj : j < W) :
    pipeline_px H W A B i j = pipeline_px H W A2 B2 i j := by
  unfold pipeline_px
  by_cases hb : i = 0 ∨ i = H - 1 ∨ j = 0 ∨ j = W - 1
  · rw [if_pos hb, if_pos hb, hA _ (idx_lt hi hj), hB _ (idx_lt hi hj)]
  · rw [if_neg hb, if_neg hb, hA _ (idx_lt hi hj), hB _ (idx_lt hi hj),
      hA _ (@idx_lt H W (i - 1) j (by omega) hj), hB _ (@idx_lt H W (i - 1) j (by omega) hj),
      hA _ (@idx_lt H W (i + 1) j (by omega) hj), hB _ (@idx_lt H W (i + 1) j (by omega) hj),
      hA _ (@idx_lt H W i (j - 1) hi (by omega)), hB _ (@idx_lt H W i (j - 1) hi (by omega)),
      hA _ (@idx_lt H W i (j + 1) hi (by omega)), hB _ (@idx_lt H W i (j + 1) hi (by omega))]

/-- C11, as amended. Neither operation compares buffer lengths or reports `InvalidInput`. For
input buffers `A`, `B` that hold at least `H * W` samples each, of equal length or not, a call
of `software_reference` and a call of the kernel return the output image of the first
`H * W` samples of `A` and of `B`; samples beyond these are ignored. -/
theorem C11_no_length_check (H W : Nat) (A B out_r C_Ref : List Int)
    (_hA : H * W ≤ A.length) (_hB : H * W ≤ B.length)
    (hO : out_r.length = H * W) (hR : C_Ref.length = H * W) :
    software_reference_call H W A B C_Ref
      = Outcome.image (software_reference H W (A.take (H * W)) (B.take (H * W)) C_Ref) ∧
    IMAGE_DIFF_POSTERIZE_call H W A B out_r
      = Outcome.image (IMAGE_DIFF_POSTERIZE H W (A.take (H * W)) (B.take (H * W)) out_r) ∧
    software_reference_call H W A B C_Ref ≠ Outcome.InvalidInput ∧
    IMAGE_DIFF_POSTERIZE_call H W A B out_r ≠ Outcome.InvalidInput := by
  have hs : software_reference H W A B C_Ref
      = software_reference H W (A.take (H * W)) (B.take (H * W)) C_Ref :=
    flat_ext (sw_out_spec H W A B C_Ref hR).1 (sw_out_spec H W _ _ C_Ref hR).1
      (fun i j hi hj => by
        rw [(sw_out_spec H W A B C_Ref hR).2 i j hi hj, (sw_out_spec H W _ _ C_Ref hR).2 i j hi hj]
        exact pipeline_px_congr H W A B _ _ (fun k hk => (rd_take hk).symm)
          (fun k hk => (rd_take hk).symm) i j hi hj)
  have hk : IMAGE_DIFF_POSTERIZE H W A B out_r
      = IMAGE_DIFF_POSTERIZE H W (A.take (H * W)) (B.take (H * W)) out_r :=
    flat_ext (kernel_out_spec H W A B out_r hO).1 (kernel_out_spec H W _ _ out_r hO).1
      (fun i j hi hj => by
        rw [(kernel_out_spec H W A B out_r hO).2 i j hi hj,
          (kernel_out_spec H W _ _ out_r hO).2 i j hi hj]
        exact pipeline_px_congr H W A B _ _ (fun k hk => (rd_take hk).symm)
          (fun k hk => (rd_take hk).symm) i j hi hj)
  refine ⟨?_, ?_, ?_, ?_⟩
  · unfold software_reference_call; rw [hs]
  · unfold IMAGE_DIFF_POSTERIZE_call; rw [hk]
  · unfold software_reference_call; exact fun h => Outcome.noConfusion h
  · unfold IMAGE_DIFF_POSTERIZE_call; exact fun h => Outcome.noConfusion h

/-- C11, an instance: buffers of 10 and 11 samples for a 3 x 3 image; the trailing samples
are ignored. -/
theorem C11_no_length_check_witness :
    software_reference_call 3 3 [100, 100, 100, 100, 100, 100, 100, 100, 100, 7]
        [50, 50, 50, 50, 50, 50, 50, 50, 50, 8, 9] (List.replicate 9 0)
      = Outcome.image (software_reference 3 3
        (List.take (3 * 3) [100, 100, 100, 100, 100, 100, 100, 100, 100, 7])
        (List.take (3 * 3) [50, 50, 50, 50, 50, 50, 50, 50, 50, 8, 9]) (List.replicate 9 0)) :=
  (C11_no_length_check 3 3 [100, 100, 100, 100, 100, 100, 100, 100, 100, 7]
    [50, 50, 50, 50, 50, 50, 50, 50, 50, 8, 9] (List.replicate 9 0) (List.replicate 9 0)
    (by decide) (by decide) (by decide) (by decide)).1

/-- C11 as stated fails: with `A` of `HEIGHT * WIDTH + 1` samples and `B` of `HEIGHT * WIDTH`
samples the lengths differ from each other and from `HEIGHT * WIDTH`, yet neither call
reports `InvalidInput`; both return an output image (sample 0 is `128`), computed from the
first `HEIGHT * WIDTH` samples of `A`. -/
theorem C11_mismatch_counterexample :
    (List.replicate (DATA_SIZE + 1) (100 : Int)).length
      ≠ (List.replicate DATA_SIZE (50 : Int)).length ∧
    (List.replicate (DATA_SIZE + 1) (100 : Int)).length ≠ HEIGHT * WIDTH ∧
    software_reference_call HEIGHT WIDTH (List.replicate (DATA_SIZE + 1) 100)
      (List.replicate DATA_SIZE 50) (List.replicate DATA_SIZE 0) ≠ Outcome.InvalidInput ∧
    IMAGE_DIFF_POSTERIZE_call HEIGHT WIDTH (List.replicate (DATA_SIZE + 1) 100)
      (List.replicate DATA_SIZE 50) (List.replicate DATA_SIZE 0) ≠ Outcome.InvalidInput ∧
    rd (software_reference HEIGHT WIDTH (List.replicate (DATA_SIZE + 1) 100)
      (List.replicate DATA_SIZE 50) (List.replicate DATA_SIZE 0)) 0 = 128 ∧
    rd (IMAGE_DIFF_POSTERIZE HEIGHT WIDTH (List.replicate (DATA_SIZE + 1) 100)
      (List.replicate DATA_SIZE 50) (List.replicate DATA_SIZE 0)) 0 = 128 := by
  have hk := (kernel_out_spec HEIGHT WIDTH (List.replicate (DATA_SIZE + 1) 100)
      (List.replicate DATA_SIZE 50) (List.replicate DATA_SIZE 0)
      (by simp [DATA_SIZE])).2 0 0 (by decide) (by decide)
  have hs := (sw_out_spec HEIGHT WIDTH (List.replicate (DATA_SIZE + 1) 100)
      (List.replicate DATA_SIZE 50) (List.replicate DATA_SIZE 0)
      (by simp [DATA_SIZE])).2 0 0 (by decide) (by decide)
  simp only [Nat.zero_mul, Nat.add_zero] at hk hs
  refine ⟨by simp, by simp [DATA_SIZE], ?_, ?_, ?_, ?_⟩
  · unfold software_reference_call; exact fun h => Outcome.noConfusion h
  · unfold IMAGE_DIFF_POSTERIZE_call; exact fun h => Outcome.noConfusion h
  · rw [hs]; decide
  · rw [hk]; decide

/-! ## Loop invariants for the access traces -/

theorem for_loop_sim {σ τ : Type} (R : σ → τ → Prop) (b1 : Nat → σ → σ) (b2 : Nat → τ → τ)
    (n : Nat) (h : ∀ i s t, i < n → R s t → R (b1 i s) (b2 i t)) (s0 : σ) (t0 : τ)
    (h0 : R s0 t0) : R (for_loop b1 n s0) (for_loop b2 n t0) := by
  have step : ∀ k, k ≤ n → R (for_loop b1 k s0) (for_loop b2 k t0) := by
    intro k
    induction k with
    | zero => intro _; exact h0
    | succ k ih =>
      intro hk
      exact h k _ _ hk (ih (Nat.le_of_succ_le hk))
  exact step n (Nat.le_refl n)

theorem for_loop_inv {σ : Type} (I : Nat → σ → Prop) (body : Nat → σ → σ) (n : Nat)
    (h : ∀ i s, i < n → I i s → I (i + 1) (body i s)) (s0 : σ) (h0 : I 0 s0) :
    I n (for_loop body n s0) := by
  have step : ∀ k, k ≤ n → I k (for_loop body k s0) := by
    intro k
    induction k with
    | zero => intro _; exact h0
    | succ k ih =>
      intro hk
      exact h k _ hk (ih (Nat.le_of_succ_le hk))
  exact step n (Nat.le_refl n)

/-- Invariant rule for two nested counted loops: `I` is indexed by the number `i * W + j` of
iterations of the inner body already executed. -/
theorem nested_inv {σ : Type} (I : Nat → σ → Prop) (body : Nat → Nat → σ → σ) (H W : Nat)
    (h : ∀ i j s, i < H → j < W → I (i * W + j) s → I (i * W + j + 1) (body i j s))
    (s0 : σ) (h0 : I 0 s0) :
    I (H * W) (for_loop (fun i s => for_loop (fun j s => body i j s) W s) H s0) := by
  refine for_loop_inv (fun i s => I (i * W) s) _ H ?_ s0 (by simpa using h0)
  intro i s hi hs
  have hin := for_loop_inv (fun j s => I (i * W + j) s) (fun j s => body i j s) W
    (fun j s hj hs => h i j s hi hj hs) s hs
  have e : (i + 1) * W = i * W + W := by ring
  show I ((i + 1) * W) _
  rw [e]
  exact hin

theorem nested_sim {σ τ : Type} (R : σ → τ → Prop) (b1 : Nat → Nat → σ → σ)
    (b2 : Nat → Nat → τ → τ) (H W : Nat)
    (h : ∀ i j s t, i < H → j < W → R s t → R (b1 i j s) (b2 i j t)) (s0 : σ) (t0 : τ)
    (h0 : R s0 t0) :
    R (for_loop (fun i s => for_loop (fun j s => b1 i j s) W s) H s0)
      (for_loop (fun i t => for_loop (fun j t => b2 i j t) W t) H t0) :=
  for_loop_sim R _ _ H
    (fun i s t hi hst => for_loop_sim R _ _ W (fun j s t hj hst => h i j s t hi hj hst) s t hst)
    s0 t0 h0

theorem writes_to_append (b : Buf) (x y : List Access) :
    writes_to b (x ++ y) = writes_to b x ++ writes_to b y := by
  unfold writes_to
  exact List.filterMap_append x y _

/-- Two nested loops whose body appends the accesses `acc i j` to the trace: the accesses stay
in bounds if those of every iteration do, the writes to a buffer that no iteration writes are
unchanged, and if iteration `(i, j)` writes a buffer exactly at `i * W + j`, the loops write
it at `0`, `1`, ..., `H * W - 1` in this order. -/
theorem traced_nested {σ : Type} (H W : Nat)
    (body : Nat → Nat → σ × List Access → σ × List Access) (acc : Nat → Nat → List Access)
    (hacc : ∀ i j st, i < H → j < W → (body i j st).2 = st.2 ++ acc i j)
    (b : Buf) (s0 : σ) (tr : List Access) :
    ((∀ a, a ∈ tr → in_bounds H W a) →
      (∀ i j, i < H → j < W → ∀ a, a ∈ acc i j → in_bounds H W a) →
      ∀ a, a ∈ (for_loop (fun i st => for_loop (fun j st => body i j st) W st) H (s0, tr)).2 →
        in_bounds H W a) ∧
    ((∀ i j, i < H → j < W → writes_to b (acc i j) = []) →
      writes_to b (for_loop (fun i st => for_loop (fun j st => body i j st) W st) H (s0, tr)).2
        = writes_to b tr) ∧
    ((∀ i j, i < H → j < W → writes_to b (acc i j) = [i * W + j]) →
      writes_to b (for_loop (fun i st => for_loop (fun j st => body i j st) W st) H (s0, tr)).2
        = writes_to b tr ++ List.range (H * W)) := by
  refine ⟨fun htr hin => ?_, fun hw => ?_, fun hw => ?_⟩
  · refine nested_inv (fun _ st => ∀ a, a ∈ st.2 → in_bounds H W a) body H W ?_ (s0, tr) htr
    intro i j st hi hj hst a ha
    rw [hacc i j st hi hj, List.mem_append] at ha
    rcases ha with ha | ha
    · exact hst a ha
    · exact hin i j hi hj a ha
  · refine nested_inv (fun _ st => writes_to b st.2 = writes_to b tr) body H W ?_ (s0, tr) rfl
    intro i j st hi hj hst
    show writes_to b (body i j st).2 = _
    rw [hacc i j st hi hj, writes_to_append, hw i j hi hj, List.append_nil, hst]
  · refine nested_inv (fun n st => writes_to b st.2 = writes_to b tr ++ List.range n) body H W
      ?_ (s0, tr) (by simp)
    intro i j st hi hj hst
    show writes_to b (body i j st).2 = _
    rw [hacc i j st hi hj, writes_to_append, hw i j hi hj, hst, List.range_succ,
      List.append_assoc]

/-- The accesses of one iteration of the sharpen loop of `software_reference`. -/
theorem sw_sharpen_acc_in_bounds (H W i j : Nat) (hi : i < H) (hj : j < W) (a : Access)
    (ha : a ∈ (if i = 0 ∨ i = H - 1 ∨ j = 0 ∨ j = W - 1 then
        [Access.read Buf.temp_C (i * W + j), Access.write Buf.C_Ref (i * W + j)]
      else
        [Access.read Buf.temp_C (i * W + j), Access.read Buf.temp_C ((i - 1) * W + j),
          Access.read Buf.temp_C ((i + 1) * W + j), Access.read Buf.temp_C (i * W + (j - 1)),
          Access.read Buf.temp_C (i * W + (j + 1)), Access.write Buf.C_Ref (i * W + j)])) :
    in_bounds H W a := by
  by_cases hb : i = 0 ∨ i = H - 1 ∨ j = 0 ∨ j = W - 1
  · rw [if_pos hb] at ha
    simp only [List.mem_cons, List.mem_singleton, List.mem_nil_iff, or_false] at ha
    rcases ha with rfl | rfl <;> exact idx_lt hi hj
  · rw [if_neg hb] at ha
    simp only [List.mem_cons, List.mem_singleton, List.mem_nil_iff, or_false] at ha
    rcases ha with rfl | rfl | rfl | rfl | rfl | rfl
    · exact idx_lt hi hj
    · exact @idx_lt H W (i - 1) j (by omega) hj
    · exact @idx_lt H W (i + 1) j (by omega) hj
    · exact @idx_lt H W i (j - 1) hi (by omega)
    · exact @idx_lt H W i (j + 1) hi (by omega)
    · exact idx_lt hi hj

theorem sw_posterize_traced_spec (H W : Nat) (A B : List Int) (tr : List Access) :
    (sw_posterize_traced H W A B tr).1 = sw_posterize H W A B ∧
    ((∀ a, a ∈ tr → in_bounds H W a) →
      ∀ a, a ∈ (sw_posterize_traced H W A B tr).2 → in_bounds H W a) ∧
    writes_to Buf.C_Ref (sw_posterize_traced H W A B tr).2 = writes_to Buf.C_Ref tr := by
  unfold sw_posterize_traced sw_posterize
  refine ⟨?_, fun htr => ?_, ?_⟩
  · refine for_loop_sim (fun (st : List Int × List Access) (s : List Int) => st.1 = s) _ _
      (H * W) ?_ (List.replicate (H * W) 0, tr) (List.replicate (H * W) 0) rfl
    intro i st s _ hst
    show List.set st.1 _ _ = List.set s _ _
    rw [hst]
  · refine for_loop_inv
      (fun _ (st : List Int × List Access) => ∀ a, a ∈ st.2 → in_bounds H W a) _ (H * W) ?_
      (List.replicate (H * W) 0, tr) htr
    intro i st hi hst a ha
    change a ∈ st.2 ++ [Access.read Buf.A i, Access.read Buf.B i, Access.write Buf.temp_C i]
      at ha
    rw [List.mem_append] at ha
    rcases ha with ha | ha
    · exact hst a ha
    · simp only [List.mem_cons, List.mem_singleton, List.mem_nil_iff, or_false] at ha
      rcases ha with rfl | rfl | rfl <;> exact hi
  · refine for_loop_inv
      (fun _ (st : List Int × List Access) =>
        writes_to Buf.C_Ref st.2 = writes_to Buf.C_Ref tr) _ (H * W) ?_
      (List.replicate (H * W) 0, tr) rfl
    intro i st _ hst
    show writes_to Buf.C_Ref
      (st.2 ++ [Access.read Buf.A i, Access.read Buf.B i, Access.write Buf.temp_C i]) = _
    rw [writes_to_append, hst]
    simp [writes_to]

theorem sw_sharpen_traced_spec (H W : Nat) (temp_C C_Ref : List Int) (tr : List Access) :
    (sw_sharpen_traced H W temp_C C_Ref tr).1 = sw_sharpen H W temp_C C_Ref ∧
    ((∀ a, a ∈ tr → in_bounds H W a) →
      ∀ a, a ∈ (sw_sharpen_traced H W temp_C C_Ref tr).2 → in_bounds H W a) ∧
    writes_to Buf.C_Ref (sw_sharpen_traced H W temp_C C_Ref tr).2
      = writes_to Buf.C_Ref tr ++ List.range (H * W) := by
  have hacc : ∀ i j (st : List Int × List Access), i < H → j < W →
      ((fun i j (st : List Int × List Access) =>
        let idx := i * W + j
        if i = 0 ∨ i = H - 1 ∨ j = 0 ∨ j = W - 1 then
          (st.1.set idx (rd temp_C idx),
           st.2 ++ [Access.read Buf.temp_C idx, Access.write Buf.C_Ref idx])
        else
          (st.1.set idx (clip_sw (stencil (rd temp_C idx) (rd temp_C ((i - 1) * W + j))
              (rd temp_C ((i + 1) * W + j)) (rd temp_C (i * W + (j - 1)))
              (rd temp_C (i * W + (j + 1))))),
           st.2 ++ [Access.read Buf.temp_C idx, Access.read Buf.temp_C ((i - 1) * W + j),
             Access.read Buf.temp_C ((i + 1) * W + j), Access.read Buf.temp_C (i * W + (j - 1)),
             Access.read Buf.temp_C (i * W + (j + 1)), Access.write Buf.C_Ref idx])) i j st).2
      = st.2 ++ (if i = 0 ∨ i = H - 1 ∨ j = 0 ∨ j = W - 1 then
          [Access.read Buf.temp_C (i * W + j), Access.write Buf.C_Ref (i * W + j)]
        else
          [Access.read Buf.temp_C (i * W + j), Access.read Buf.temp_C ((i - 1) * W + j),
            Access.read Buf.temp_C ((i + 1) * W + j), Access.read Buf.temp_C (i * W + (j - 1)),
            Access.read Buf.temp_C (i * W + (j + 1)), Access.write Buf.C_Ref (i * W + j)]) := by
    intro i j st _ _
    simp only []
    split <;> rfl
  have ht := traced_nested H W _ _ hacc Buf.C_Ref C_Ref tr
  refine ⟨?_, fun htr => ?_, ?_⟩
  · refine nested_sim (fun (st : List Int × List Access) (s : List Int) => st.1 = s) _ _ H W
      ?_ (C_Ref, tr) C_Ref rfl
    intro i j st s _ _ hst
    simp only []
    split
    · show List.set st.1 _ _ = List.set s _ _; rw [hst]
    · show List.set st.1 _ _ = List.set s _ _; rw [hst]
  · exact ht.1 htr (fun i j hi hj a ha => sw_sharpen_acc_in_bounds H W i j hi hj a ha)
  · refine ht.2.2 (fun i j _ _ => ?_)
    split <;> simp [writes_to]

theorem read_img_traced_spec (src dst : Buf) (H W : Nat) (inp : List Int) (tr : List Access) :
    (read_img_traced src dst H W inp tr).1 = read_img H W inp ∧
    ((∀ a, a ∈ tr → in_bounds H W a) →
      ∀ a, a ∈ (read_img_traced src dst H W inp tr).2 → in_bounds H W a) ∧
    writes_to Buf.out_r (read_img_traced src dst H W inp tr).2 = writes_to Buf.out_r tr := by
  have ht := @traced_nested (List (List Int)) H W
    (fun i j st => (wr2 st.1 i j (rd inp (i * W + j)),
      st.2 ++ [Access.read src (i * W + j), Access.write2 dst i j]))
    (fun i j => [Access.read src (i * W + j), Access.write2 dst i j])
    (fun _ _ _ _ _ => rfl) Buf.out_r (local2 H W) tr
  refine ⟨?_, fun htr => ?_, ?_⟩
  · refine nested_sim
      (fun (st : List (List Int) × List Access) (s : List (List Int)) => st.1 = s)
      (fun i j st => (wr2 st.1 i j (rd inp (i * W + j)),
        st.2 ++ [Access.read src (i * W + j), Access.write2 dst i j]))
      (fun i j img => wr2 img i j (rd inp (i * W + j))) H W ?_ (local2 H W, tr) (local2 H W) rfl
    intro i j st s _ _ hst
    show wr2 st.1 _ _ _ = wr2 s _ _ _
    rw [hst]
  · refine ht.1 htr (fun i j hi hj a ha => ?_)
    simp only [List.mem_cons, List.mem_singleton, List.mem_nil_iff, or_false] at ha
    rcases ha with rfl | rfl
    · exact idx_lt hi hj
    · exact ⟨hi, hj⟩
  · exact ht.2.1 (fun i j _ _ => by simp [writes_to])

theorem process_diff_post_traced_spec (H W : Nat) (img_A img_B : List (List Int))
    (tr : List Access) :
    (process_diff_post_traced H W img_A img_B tr).1 = process_diff_post H W img_A img_B ∧
    ((∀ a, a ∈ tr → in_bounds H W a) →
      ∀ a, a ∈ (process_diff_post_traced H W img_A img_B tr).2 → in_bounds H W a) ∧
    writes_to Buf.out_r (process_diff_post_traced H W img_A img_B tr).2
      = writes_to Buf.out_r tr := by
  have ht := @traced_nested (List (List Int)) H W
    (fun i j st => (wr2 st.1 i j (diff_post (rd2 img_A i j) (rd2 img_B i j)),
      st.2 ++ [Access.read2 Buf.img_A i j, Access.read2 Buf.img_B i j,
        Access.write2 Buf.img_C i j]))
    (fun i j => [Access.read2 Buf.img_A i j, Access.read2 Buf.img_B i j,
      Access.write2 Buf.img_C i j])
    (fun _ _ _ _ _ => rfl) Buf.out_r (local2 H W) tr
  refine ⟨?_, fun htr => ?_, ?_⟩
  · refine nested_sim
      (fun (st : List (List Int) × List Access) (s : List (List Int)) => st.1 = s)
      (fun i j st => (wr2 st.1 i j (diff_post (rd2 img_A i j) (rd2 img_B i j)),
        st.2 ++ [Access.read2 Buf.img_A i j, Access.read2 Buf.img_B i j,
          Access.write2 Buf.img_C i j]))
      (fun i j img_C => wr2 img_C i j (diff_post (rd2 img_A i j) (rd2 img_B i j))) H W ?_
      (local2 H W, tr) (local2 H W) rfl
    intro i j st s _ _ hst
    show wr2 st.1 _ _ _ = wr2 s _ _ _
    rw [hst]
  · refine ht.1 htr (fun i j hi hj a ha => ?_)
    simp only [List.mem_cons, List.mem_singleton, List.mem_nil_iff, or_false] at ha
    rcases ha with rfl | rfl | rfl <;> exact ⟨hi, hj⟩
  · exact ht.2.1 (fun i j _ _ => by simp [writes_to])

theorem write_result_traced_spec (H W : Nat) (C_filt : List (List Int)) (out_r : List Int)
    (tr : List Access) :
    (write_result_traced H W C_filt out_r tr).1 = write_result H W C_filt out_r ∧
    ((∀ a, a ∈ tr → in_bounds H W a) →
      ∀ a, a ∈ (write_result_traced H W C_filt out_r tr).2 → in_bounds H W a) ∧
    writes_to Buf.out_r (write_result_traced H W C_filt out_r tr).2
      = writes_to Buf.out_r tr ++ List.range (H * W) := by
  have ht := @traced_nested (List Int) H W
    (fun i j st => (st.1.set (i * W + j) (rd2 C_filt i j),
      st.2 ++ [Access.read2 Buf.C_filt i j, Access.write Buf.out_r (i * W + j)]))
    (fun i j => [Access.read2 Buf.C_filt i j, Access.write Buf.out_r (i * W + j)])
    (fun _ _ _ _ _ => rfl) Buf.out_r out_r tr
  refine ⟨?_, fun htr => ?_, ?_⟩
  · refine nested_sim (fun (st : List Int × List Access) (s : List Int) => st.1 = s)
      (fun i j st => (st.1.set (i * W + j) (rd2 C_filt i j),
        st.2 ++ [Access.read2 Buf.C_filt i j, Access.write Buf.out_r (i * W + j)]))
      (fun i j out_r => out_r.set (i * W + j) (rd2 C_filt i j)) H W ?_ (out_r, tr) out_r rfl
    intro i j st s _ _ hst
    show List.set st.1 _ _ = List.set s _ _
    rw [hst]
  · refine ht.1 htr (fun i j hi hj a ha => ?_)
    simp only [List.mem_cons, List.mem_singleton, List.mem_nil_iff, or_false] at ha
    rcases ha with rfl | rfl
    · exact ⟨hi, hj⟩
    · exact idx_lt hi hj
  · exact ht.2.2 (fun i j _ _ => by simp [writes_to])

theorem sharpen_acc_in_bounds (H W i j : Nat) (hi : i < H) (hj : j < W) (a : Access)
    (ha : a ∈ (if i = 0 ∨ i = H - 1 ∨ j = 0 ∨ j = W - 1 then
        [Access.read2 Buf.img_C i j, Access.write2 Buf.C_filt i j]
      else
        [Access.read2 Buf.img_C i j, Access.read2 Buf.img_C (i - 1) j,
          Access.read2 Buf.img_C (i + 1) j, Access.read2 Buf.img_C i (j - 1),
          Access.read2 Buf.img_C i (j + 1), Access.write2 Buf.C_filt i j])) :
    in_bounds H W a := by
  by_cases hb : i = 0 ∨ i = H - 1 ∨ j = 0 ∨ j = W - 1
  · rw [if_pos hb] at ha
    simp only [List.mem_cons, List.mem_singleton, List.mem_nil_iff, or_false] at ha
    rcases ha with rfl | rfl <;> exact ⟨hi, hj⟩
  · rw [if_neg hb] at ha
    simp only [List.mem_cons, List.mem_singleton, List.mem_nil_iff, or_false] at ha
    rcases ha with rfl | rfl | rfl | rfl | rfl | rfl
    · exact ⟨hi, hj⟩
    · exact ⟨by omega, hj⟩
    · exact ⟨by omega, hj⟩
    · exact ⟨hi, by omega⟩
    · exact ⟨hi, by omega⟩
    · exact ⟨hi, hj⟩

theorem process_sharpen_filter_traced_spec (H W : Nat) (img_C : List (List Int))
    (tr : List Access) :
    (process_sharpen_filter_traced H W img_C tr).1 = process_sharpen_filter H W img_C ∧
    ((∀ a, a ∈ tr → in_bounds H W a) →
      ∀ a, a ∈ (process_sharpen_filter_traced H W img_C tr).2 → in_bounds H W a) ∧
    writes_to Buf.out_r (process_sharpen_filter_traced H W img_C tr).2
      = writes_to Buf.out_r tr := by
  have hacc : ∀ i j (st : List (List Int) × List Access), i < H → j < W →
      ((fun i j (st : List (List Int) × List Access) =>
        if i = 0 ∨ i = H - 1 ∨ j = 0 ∨ j = W - 1 then
          (wr2 st.1 i j (rd2 img_C i j),
           st.2 ++ [Access.read2 Buf.img_C i j, Access.write2 Buf.C_filt i j])
        else
          (wr2 st.1 i j (clip (stencil (rd2 img_C i j) (rd2 img_C (i - 1) j)
              (rd2 img_C (i + 1) j) (rd2 img_C i (j - 1)) (rd2 img_C i (j + 1))) 0 255),
           st.2 ++ [Access.read2 Buf.img_C i j, Access.read2 Buf.img_C (i - 1) j,
             Access.read2 Buf.img_C (i + 1) j, Access.read2 Buf.img_C i (j - 1),
             Access.read2 Buf.img_C i (j + 1), Access.write2 Buf.C_filt i j])) i j st).2
      = st.2 ++ (if i = 0 ∨ i = H - 1 ∨ j = 0 ∨ j = W - 1 then
          [Access.read2 Buf.img_C i j, Access.write2 Buf.C_filt i j]
        else
          [Access.read2 Buf.img_C i j, Access.read2 Buf.img_C (i - 1) j,
            Access.read2 Buf.img_C (i + 1) j, Access.read2 Buf.img_C i (j - 1),
            Access.read2 Buf.img_C i (j + 1), Access.write2 Buf.C_filt i j]) := by
    intro i j st _ _
    simp only []
    split <;> rfl
  have ht := traced_nested H W _ _ hacc Buf.out_r (local2 H W) tr
  refine ⟨?_, fun htr => ?_, ?_⟩
  · refine nested_sim
      (fun (st : List (List Int) × List Access) (s : List (List Int)) => st.1 = s) _ _ H W
      ?_ (local2 H W, tr) (local2 H W) rfl
    intro i j st s _ _ hst
    simp only []
    split
    · show wr2 st.1 _ _ _ = wr2 s _ _ _; rw [hst]
    · show wr2 st.1 _ _ _ = wr2 s _ _ _; rw [hst]
  · exact ht.1 htr (fun i j hi hj a ha => sharpen_acc_in_bounds H W i j hi hj a ha)
  · refine ht.2.1 (fun i j _ _ => ?_)
    split <;> simp [writes_to]

theorem software_reference_traced_spec (H W : Nat) (A B C_Ref : List Int) :
    (software_reference_traced H W A B C_Ref).1 = software_reference H W A B C_Ref ∧
    (∀ a, a ∈ (software_reference_traced H W A B C_Ref).2 → in_bounds H W a) ∧
    writes_to Buf.C_Ref (software_reference_traced H W A B C_Ref).2 = List.range (H * W) := by
  have hp := sw_posterize_traced_spec H W A B []
  have hs := sw_sharpen_traced_spec H W (sw_posterize_traced H W A B []).1 C_Ref
    (sw_posterize_traced H W A B []).2
  have hin := hp.2.1 (fun a ha => by simp at ha)
  refine ⟨?_, ?_, ?_⟩
  · show (sw_sharpen_traced H W _ C_Ref _).1 = _
    rw [hs.1, hp.1]
    rfl
  · exact hs.2.1 hin
  · show writes_to Buf.C_Ref (sw_sharpen_traced H W _ C_Ref _).2 = _
    rw [hs.2.2, hp.2.2]
    simp [writes_to]

theorem kernel_traced_spec (H W : Nat) (in1 in2 out_r : List Int) :
    (IMAGE_DIFF_POSTERIZE_traced H W in1 in2 out_r).1 = IMAGE_DIFF_POSTERIZE H W in1 in2 out_r ∧
    (∀ a, a ∈ (IMAGE_DIFF_POSTERIZE_traced H W in1 in2 out_r).2 → in_bounds H W a) ∧
    writes_to Buf.out_r (IMAGE_DIFF_POSTERIZE_traced H W in1 in2 out_r).2
      = List.range (H * W) := by
  have ha := read_img_traced_spec Buf.in1 Buf.img_A H W in1 []
  have hb := read_img_traced_spec Buf.in2 Buf.img_B H W in2
    (read_img_traced Buf.in1 Buf.img_A H W in1 []).2
  have hc := process_diff_post_traced_spec H W
    (read_img_traced Buf.in1 Buf.img_A H W in1 []).1
    (read_img_traced Buf.in2 Buf.img_B H W in2
      (read_img_traced Buf.in1 Buf.img_A H W in1 []).2).1
    (read_img_traced Buf.in2 Buf.img_B H W in2
      (read_img_traced Buf.in1 Buf.img_A H W in1 []).2).2
  have hf := process_sharpen_filter_traced_spec H W
    (process_diff_post_traced H W
      (read_img_traced Buf.in1 Buf.img_A H W in1 []).1
      (read_img_traced Buf.in2 Buf.img_B H W in2
        (read_img_traced Buf.in1 Buf.img_A H W in1 []).2).1
      (read_img_traced Buf.in2 Buf.img_B H W in2
        (read_img_traced Buf.in1 Buf.img_A H W in1 []).2).2).1
    (process_diff_post_traced H W
      (read_img_traced Buf.in1 Buf.img_A H W in1 []).1
      (read_img_traced Buf.in2 Buf.img_B H W in2
        (read_img_traced Buf.in1 Buf.img_A H W in1 []).2).1
      (read_img_traced Buf.in2 Buf.img_B H W in2
        (read_img_traced Buf.in1 Buf.img_A H W in1 []).2).2).2
  have hw := write_result_traced_spec H W
    (process_sharpen_filter_traced H W
      (process_diff_post_traced H W
        (read_img_traced Buf.in1 Buf.img_A H W in1 []).1
        (read_img_traced Buf.in2 Buf.img_B H W in2
          (read_img_traced Buf.in1 Buf.img_A H W in1 []).2).1
        (read_img_traced Buf.in2 Buf.img_B H W in2
          (read_img_traced Buf.in1 Buf.img_A H W in1 []).2).2).1
      (process_diff_post_traced H W
        (read_img_traced Buf.in1 Buf.img_A H W in1 []).1
        (read_img_traced Buf.in2 Buf.img_B H W in2
          (read_img_traced Buf.in1 Buf.img_A H W in1 []).2).1
        (read_img_traced Buf.in2 Buf.img_B H W in2
          (read_img_traced Buf.in1 Buf.img_A H W in1 []).2).2).2).1
    out_r
    (process_sharpen_filter_traced H W
      (process_diff_post_traced H W
        (read_img_traced Buf.in1 Buf.img_A H W in1 []).1
        (read_img_traced Buf.in2 Buf.img_B H W in2
          (read_img_traced Buf.in1 Buf.img_A H W in1 []).2).1
        (read_img_traced Buf.in2 Buf.img_B H W in2
          (read_img_traced Buf.in1 Buf.img_A H W in1 []).2).2).1
      (process_diff_post_traced H W
        (read_img_traced Buf.in1 Buf.img_A H W in1 []).1
        (read_img_traced Buf.in2 Buf.img_B H W in2
          (read_img_traced Buf.in1 Buf.img_A H W in1 []).2).1
        (read_img_traced Buf.in2 Buf.img_B H W in2
          (read_img_traced Buf.in1 Buf.img_A H W in1 []).2).2).2).2
  have hin := hw.2.1 (hf.2.1 (hc.2.1 (hb.2.1 (ha.2.1 (fun a h => by simp at h)))))
  refine ⟨?_, hin, ?_⟩
  · show (write_result_traced H W _ out_r _).1 = _
    rw [hw.1, hf.1, hc.1, hb.1, ha.1]
    rfl
  · show writes_to Buf.out_r (write_result_traced H W _ out_r _).2 = _
    rw [hw.2.2, hf.2.2, hc.2.2, hb.2.2, ha.2.2]
    simp [writes_to]

theorem neighbour_indices (H W i j : Nat) (hi : i < H) (hj : j < W)
    (hb : ¬ (i = 0 ∨ i = H - 1 ∨ j = 0 ∨ j = W - 1)) :
    (0 ≤ ((i : Int) - 1) * W + j ∧ ((i : Int) - 1) * W + j < H * W) ∧
    (0 ≤ ((i : Int) + 1) * W + j ∧ ((i : Int) + 1) * W + j < H * W) ∧
    (0 ≤ (i : Int) * W + ((j : Int) - 1) ∧ (i : Int) * W + ((j : Int) - 1) < H * W) ∧
    (0 ≤ (i : Int) * W + ((j : Int) + 1) ∧ (i : Int) * W + ((j : Int) + 1) < H * W) := by
  have e1 : ((i - 1 : Nat) : Int) = (i : Int) - 1 := by omega
  have e2 : ((j - 1 : Nat) : Int) = (j : Int) - 1 := by omega
  have n1 : (((i - 1) * W + j : Nat) : Int) < ((H * W : Nat) : Int) := by
    exact_mod_cast @idx_lt H W (i - 1) j (by omega) hj
  have n2 : (((i + 1) * W + j : Nat) : Int) < ((H * W : Nat) : Int) := by
    exact_mod_cast @idx_lt H W (i + 1) j (by omega) hj
  have n3 : ((i * W + (j - 1) : Nat) : Int) < ((H * W : Nat) : Int) := by
    exact_mod_cast @idx_lt H W i (j - 1) hi (by omega)
  have n4 : ((i * W + (j + 1) : Nat) : Int) < ((H * W : Nat) : Int) := by
    exact_mod_cast @idx_lt H W i (j + 1) hi (by omega)
  push_cast at n1 n2 n3 n4
  rw [e1] at n1
  rw [e2] at n3
  have p1 : 0 ≤ ((i : Int) - 1) * W := mul_nonneg (by omega) (by omega)
  have p2 : 0 ≤ ((i : Int) + 1) * W := mul_nonneg (by omega) (by omega)
  have p3 : 0 ≤ (i : Int) * W := mul_nonneg (by omega) (by omega)
  have j0 : (0 : Int) ≤ j := by omega
  have j1 : (0 : Int) ≤ (j : Int) - 1 := by omega
  exact ⟨⟨by linarith, n1⟩, ⟨by linarith, n2⟩, ⟨by linarith, n3⟩, ⟨by linarith, n4⟩⟩

/-- C15. For every `(i, j)` with `i < H` and `j < W` the flat index `i * W + j` lies in
`[0, H * W)`, and for a non-border pixel so do the signed indices `(i-1) * W + j`,
`(i+1) * W + j`, `i * W + (j-1)`, `i * W + (j+1)`. Every memory access of
`software_reference` and of the kernel, whose traced runs compute the same buffers, stays
inside its buffer of `H * W` samples (`H` rows and `W` columns for the local arrays), and the
output buffer (`C_Ref`, `out_r`) is written at the indices `0, 1, ..., H * W - 1`, each
exactly once. -/
theorem C15_in_bounds_indexing (H W : Nat) (A B out_r C_Ref : List Int)
    (_hA : A.length = H * W) (_hB : B.length = H * W)
    (_hO : out_r.length = H * W) (_hR : C_Ref.length = H * W) :
    (∀ i j : Nat, i < H → j < W →
      i * W + j < H * W ∧
      (¬ (i = 0 ∨ i = H - 1 ∨ j = 0 ∨ j = W - 1) →
        (0 ≤ ((i : Int) - 1) * W + j ∧ ((i : Int) - 1) * W + j < H * W) ∧
        (0 ≤ ((i : Int) + 1) * W + j ∧ ((i : Int) + 1) * W + j < H * W) ∧
        (0 ≤ (i : Int) * W + ((j : Int) - 1) ∧ (i : Int) * W + ((j : Int) - 1) < H * W) ∧
        (0 ≤ (i : Int) * W + ((j : Int) + 1) ∧ (i : Int) * W + ((j : Int) + 1) < H * W))) ∧
    (software_reference_traced H W A B C_Ref).1 = software_reference H W A B C_Ref ∧
    (IMAGE_DIFF_POSTERIZE_traced H W A B out_r).1 = IMAGE_DIFF_POSTERIZE H W A B out_r ∧
    (∀ a, a ∈ (software_reference_traced H W A B C_Ref).2 → in_bounds H W a) ∧
    (∀ a, a ∈ (IMAGE_DIFF_POSTERIZE_traced H W A B out_r).2 → in_bounds H W a) ∧
    writes_to Buf.C_Ref (software_reference_traced H W A B C_Ref).2 = List.range (H * W) ∧
    writes_to Buf.out_r (IMAGE_DIFF_POSTERIZE_traced H W A B out_r).2 = List.range (H * W) ∧
    (∀ idx, idx < H * W →
      (writes_to Buf.C_Ref (software_reference_traced H W A B C_Ref).2).count idx = 1 ∧
      (writes_to Buf.out_r (IMAGE_DIFF_POSTERIZE_traced H W A B out_r).2).count idx = 1) := by
  have hs := software_reference_traced_spec H W A B C_Ref
  have hk := kernel_traced_spec H W A B out_r
  refine ⟨fun i j hi hj => ⟨idx_lt hi hj, neighbour_indices H W i j hi hj⟩,
    hs.1, hk.1, hs.2.1, hk.2.1, hs.2.2, hk.2.2, fun idx hidx => ?_⟩
  rw [hs.2.2, hk.2.2]
  have hc := List.count_eq_one_of_mem (List.nodup_range (H * W)) (List.mem_range.mpr hidx)
  exact ⟨hc, hc⟩

/-- C15, an instance: the indices written to `C_Ref` for a 3 x 3 image. -/
theorem C15_in_bounds_indexing_witness :
    writes_to Buf.C_Ref (software_reference_traced 3 3 [0, 10, 40, 100, 200, 255, 96, 32, 31]
      [5, 0, 0, 250, 0, 0, 0, 64, 31] (List.replicate 9 0)).2 = List.range (3 * 3) :=
  (C15_in_bounds_indexing 3 3 [0, 10, 40, 100, 200, 255, 96, 32, 31]
    [5, 0, 0, 250, 0, 0, 0, 64, 31] (List.replicate 9 0) (List.replicate 9 0)
    (by decide) (by decide) (by decide) (by decide)).2.2.2.2.2.1

end Archlab2
